import Mathlib

/-!
VM8090 power controller (`power.c`).

A shallow embedding of the relay command tool: the precedence merge done by
`main` and the commands it issues afterwards, the K8090 packet codec
(`do_checksum`, `write_device`, `read_device` and the per-command helpers),
the relay-list resolver (`__parse_relay_list`, `load_alias_list`) and the
status display (`get_alias_name`, `power_status`, `firmware_version`).

C `int` values are `Int`; `uint8_t` values are `Nat`, reduced modulo 256 where an
`int` is stored into one; C strings are `List Char` (the terminating NUL is the end
of the list). Calls that end the process (`exit`, `error`) are the `error` results.
Failed allocations (`asprintf`, `strdup`, `malloc`) and a wrap of the `followed`
counter at `2^31` are outside the model.
-/

namespace Power

/-! ## Action masks and the precedence merge of `main` -/

/-- The five global action masks of `power.c` (`static int on_map, off_map,
toggle_map, cycle_map, status_map`). -/
structure maps where
  on_map : Int
  off_map : Int
  toggle_map : Int
  cycle_map : Int
  status_map : Int
deriving DecidableEq, Repr

/-- The C expression `x & ~y` on `int`. -/
def and_not (x y : Int) : Int := Int.land x (Int.lnot y)

/-- Lines 470-478 of `main`: the six compound assignments, in source order. -/
def merge (g : maps) : maps :=
  -- cycle_map &= ~off_map;
  let g := { g with cycle_map := and_not g.cycle_map g.off_map }
  -- on_map &= ~off_map;
  let g := { g with on_map := and_not g.on_map g.off_map }
  -- on_map &= ~cycle_map;
  let g := { g with on_map := and_not g.on_map g.cycle_map }
  -- on_map &= ~toggle_map;
  let g := { g with on_map := and_not g.on_map g.toggle_map }
  -- off_map &= ~toggle_map;
  let g := { g with off_map := and_not g.off_map g.toggle_map }
  -- cycle_map &= ~toggle_map;
  let g := { g with cycle_map := and_not g.cycle_map g.toggle_map }
  g

/-- Bit `k` of a mask is set. -/
def bit_set (m : Int) (k : Nat) : Prop := Int.testBit m k = true

instance (m : Int) (k : Nat) : Decidable (bit_set m k) := by
  unfold bit_set; infer_instance

/-! ## Outcomes -/

/-- The ways a run of `power.c` ends early, plus the two outcomes the C standard leaves
undefined and the fuel marker of the embedding. -/
inductive fault where
  /-- Exit through `usage(); exit(1);`. -/
  | usage
  /-- Exit through `error(1, EINVAL, "circular aliasing in /etc/power?")`. -/
  | circular_aliasing
  /-- Exit through `error(1, errno, "write")`. -/
  | write_failed
  /-- Exit through `error(1, errno, "read")`. -/
  | read_failed
  /-- Exit through `error(1, EINVAL, "bad checksum on read")`. -/
  | bad_checksum
  /-- Exit through `error(1, errno, "cannot open alias directory %s", ...)`. -/
  | opendir_failed
  /-- The first `strtok_r` call returned `NULL` and the null pointer went to
  `match_alias` and `atoi`: undefined behaviour. -/
  | null_token
  /-- Call of `atoi` on a number that does not fit an `int`: undefined behaviour. -/
  | atoi_overflow
  /-- Not an outcome of the program: the recursion went deeper than the fuel given
  to the embedding. -/
  | out_of_fuel
deriving DecidableEq, Repr

/-- Either a value or the fault that ended the run. -/
inductive result (α : Type) where
  | ok (a : α)
  | error (e : fault)
deriving DecidableEq, Repr

/-! ## The K8090 packet and its checksum -/

def PACKET_STX : Nat := 0x04
def PACKET_ETX : Nat := 0x0f
def GET_STATUS : Int := 0x18
def TURN_ON : Int := 0x11
def TURN_OFF : Int := 0x12
def TOGGLE : Int := 0x14
def GET_VERSION : Int := 0x71

/-- Conversion of an `int` to `uint8_t` on assignment. -/
def to_uint8 (x : Int) : Nat := (x % 256).toNat

/-- The inner `struct k8090_payload`: five `uint8_t` fields. -/
structure k8090_payload where
  stx : Nat
  command : Nat
  mask : Nat
  param1 : Nat
  param2 : Nat
deriving DecidableEq, Repr

/-- The `struct k8090_packet`: the payload followed by two `uint8_t` fields, packed. -/
structure k8090_packet where
  payload : k8090_payload
  checksum : Nat
  etx : Nat
deriving DecidableEq, Repr

/-- The size `sizeof(uint8_t)`. -/
def sizeof_uint8_t : Nat := 1

/-- The size `sizeof(struct k8090_payload)`: five `uint8_t` members, no padding. -/
def sizeof_k8090_payload : Nat := 5 * sizeof_uint8_t

/-- The size `sizeof(struct k8090_packet)`: the payload and two more `uint8_t` members,
`__attribute__((packed))`. -/
def sizeof_k8090_packet : Nat := sizeof_k8090_payload + sizeof_uint8_t + sizeof_uint8_t

/-- The bytes of a payload in memory order. -/
def k8090_payload.bytes (p : k8090_payload) : List Nat :=
  [p.stx, p.command, p.mask, p.param1, p.param2]

/-- The bytes of a packet in memory order: what `write(fd, pkt, sizeof(*pkt))`
reads from the structure. -/
def k8090_packet.bytes (pkt : k8090_packet) : List Nat :=
  pkt.payload.bytes ++ [pkt.checksum, pkt.etx]

/-- The structure seen through a buffer of bytes: what `read(fd, pkt, sizeof(*pkt))`
leaves in `*pkt`. -/
def k8090_packet.of_bytes (b : List Nat) : k8090_packet :=
  { payload := { stx := b.getD 0 0, command := b.getD 1 0, mask := b.getD 2 0,
                 param1 := b.getD 3 0, param2 := b.getD 4 0 },
    checksum := b.getD 5 0,
    etx := b.getD 6 0 }

/-- The function `do_checksum`: a `uint8_t` accumulator runs over the bytes of the payload
(`r` from `p` to `p + 1`), and `~checksum + 1`, computed in `int`, is returned as
`uint8_t`. -/
def do_checksum (p : k8090_payload) : Nat :=
  let checksum : Nat := p.bytes.foldl (fun checksum r => (checksum + r) % 256) 0
  to_uint8 (Int.lnot (checksum : Int) + 1)

/-! ## The serial line and standard output -/

/-- What the run can see of its environment on the device side, and what it leaves
there. -/
structure world where
  /-- The `debug` flag. -/
  debug : Bool
  /-- Text written to standard output, oldest first. -/
  stdout : List String
  /-- The buffers handed to `write`, oldest first. -/
  tx : List (List Nat)
  /-- Return values of the `write` calls to come; when exhausted, `write` returns
  the count it was given. -/
  write_ret : List Int
  /-- Results of the `read` calls to come: `none` is a failed read (`-1`),
  `some bs` delivers the bytes `bs`; when exhausted, `read` returns `0`. -/
  rx : List (Option (List Nat))
  /-- The count passed to each `read` call so far, oldest first. -/
  rx_req : List Nat
deriving DecidableEq, Repr

/-- The system call `write(fd, buf, count)`: the first `count` bytes of `buf` go to the
line, the return value comes from the environment. -/
def sys_write (w : world) (buf : List Nat) (count : Nat) : world × Int :=
  match w.write_ret with
  | [] => ({ w with tx := w.tx ++ [buf.take count] }, (count : Int))
  | r :: rest => ({ w with tx := w.tx ++ [buf.take count], write_ret := rest }, r)

/-- The system call `read(fd, buf, count)`: at most `count` bytes are stored at the
start of `buf`, the rest of `buf` keeps its content; returns the number of bytes stored,
or `-1`. -/
def sys_read (w : world) (buf : List Nat) (count : Nat) : world × List Nat × Int :=
  match w.rx with
  | [] => ({ w with rx_req := w.rx_req ++ [count] }, buf, 0)
  | none :: rest => ({ w with rx := rest, rx_req := w.rx_req ++ [count] }, buf, -1)
  | some bs :: rest =>
    let got := bs.take count
    ({ w with rx := rest, rx_req := w.rx_req ++ [count] },
     got ++ buf.drop got.length, (got.length : Int))

/-- One hexadecimal digit, lower case. -/
def hex_digit (n : Nat) : Char := "0123456789abcdef".toList.getD n '0'

/-- The `printf` conversion `%.2x` of a `uint8_t`. -/
def hex2 (n : Nat) : String := String.mk [hex_digit (n / 16 % 16), hex_digit (n % 16)]

/-- The function `dump_packet`: one line on standard output. -/
def dump_packet (w : world) (dir : String) (pkt : k8090_packet) : world :=
  { w with stdout := w.stdout ++
      [dir ++ " \x7b " ++ hex2 pkt.payload.stx ++ ", " ++ hex2 pkt.payload.command ++ ", "
        ++ hex2 pkt.payload.mask ++ ", " ++ hex2 pkt.payload.param1 ++ ", "
        ++ hex2 pkt.payload.param2 ++ ", " ++ hex2 pkt.checksum ++ ", "
        ++ hex2 pkt.etx ++ " \x7d\n"] }

/-- The function `write_device`: fills in the start marker, the checksum and the end marker, then
writes `sizeof(*pkt)` bytes; a negative return of `write` is fatal. The packet is an
in/out argument. -/
def write_device (w : world) (pkt : k8090_packet) : world × result k8090_packet :=
  let pkt := { pkt with payload := { pkt.payload with stx := PACKET_STX } }
  let pkt := { pkt with checksum := do_checksum pkt.payload }
  let pkt := { pkt with etx := PACKET_ETX }
  let w := if w.debug then dump_packet w "=>" pkt else w
  let (w, ret) := sys_write w pkt.bytes sizeof_k8090_packet
  if ret < 0 then (w, .error .write_failed) else (w, .ok pkt)

/-- The function `read_device`: reads `sizeof(*pkt)` bytes into the packet; a negative return of
`read` is fatal, and so is a checksum field that differs from `do_checksum` of the
payload. -/
def read_device (w : world) (pkt : k8090_packet) : world × result k8090_packet :=
  let (w, buf, ret) := sys_read w pkt.bytes sizeof_k8090_packet
  if ret < 0 then (w, .error .read_failed) else
  let pkt := k8090_packet.of_bytes buf
  let w := if w.debug then dump_packet w "<=" pkt else w
  if do_checksum pkt.payload ≠ pkt.checksum then (w, .error .bad_checksum)
  else (w, .ok pkt)

/-- The function `init_packet`: `memset` to zero, then the command code is stored as `uint8_t`. -/
def init_packet (command : Int) : k8090_packet :=
  let pkt : k8090_packet := { payload := { stx := 0, command := 0, mask := 0,
                                            param1 := 0, param2 := 0 },
                              checksum := 0, etx := 0 }
  { pkt with payload := { pkt.payload with command := to_uint8 command } }

/-- The function `power_on(fd, map)`. -/
def power_on (w : world) (map : Int) : world × result Unit :=
  let pkt := init_packet TURN_ON
  let pkt := { pkt with payload := { pkt.payload with mask := to_uint8 map } }
  match write_device w pkt with
  | (w, .error e) => (w, .error e)
  | (w, .ok _) => (w, .ok ())

/-- The function `power_off(fd, map)`. -/
def power_off (w : world) (map : Int) : world × result Unit :=
  let pkt := init_packet TURN_OFF
  let pkt := { pkt with payload := { pkt.payload with mask := to_uint8 map } }
  match write_device w pkt with
  | (w, .error e) => (w, .error e)
  | (w, .ok _) => (w, .ok ())

/-- The function `power_toggle(fd)`: the mask is the global `toggle_map`. -/
def power_toggle (w : world) (g : maps) : world × result Unit :=
  let pkt := init_packet TOGGLE
  let pkt := { pkt with payload := { pkt.payload with mask := to_uint8 g.toggle_map } }
  match write_device w pkt with
  | (w, .error e) => (w, .error e)
  | (w, .ok _) => (w, .ok ())

/-- The function `power_cycle(fd)`: off, `sleep(2)`, on, both with the global `cycle_map`; the pause
has no effect on the values exchanged. -/
def power_cycle (w : world) (g : maps) : world × result Unit :=
  match power_off w g.cycle_map with
  | (w, .error e) => (w, .error e)
  | (w, .ok _) => power_on w g.cycle_map

/-! ## The alias directory and the relay-list resolver -/

/-- The value of `BUFSIZ` in glibc's `<stdio.h>`; it sizes the buffer that receives an
alias target. -/
def BUFSIZ : Nat := 8192

def INT_MIN : Int := -2147483648
def INT_MAX : Int := 2147483647

/-- The alias directory `/etc/power` as the program sees it. -/
structure alias_dir where
  /-- The content of the symbolic link `/etc/power/<name>`, or `none` when `readlink`
  fails there (no such entry, or not a symbolic link). -/
  readlink : List Char → Option (List Char)
  /-- The names `readdir` returns, in order, `.` and `..` included; `none` when
  `opendir` fails. -/
  entries : Option (List (List Char))

/-- The function `match_alias(alias, buf, buflen)`, with `name` for its first argument:
`readlink` stores at most
`buflen - 1` bytes of the target in `buf`; the result is the string left in `buf`
on a match (return value 1) and `none` otherwise (return value 0). -/
def match_alias (d : alias_dir) (name : List Char) (buflen : Nat) : Option (List Char) :=
  match d.readlink name with
  | none => none
  | some target => some (target.take (buflen - 1))

/-- The C library predicate `isspace` in the C locale. -/
def isspace (c : Char) : Bool :=
  c = ' ' || c = '\t' || c = '\n' || c = '\x0b' || c = '\x0c' || c = '\r'

/-- The value of a run of decimal digits. -/
def digits_value (ds : List Char) : Int :=
  ds.foldl (fun acc c => 10 * acc + ((c.toNat : Int) - 48)) 0

/-- The optional sign in front of the digits: whether it is a minus, and the text after
it. -/
def atoi_sign (s : List Char) : Bool × List Char :=
  match s with
  | '-' :: r => (true, r)
  | '+' :: r => (false, r)
  | _ => (false, s)

/-- The C library function `atoi`: leading white space is skipped, one optional sign is
read, then the longest run of decimal digits (value 0 when there is none); whatever
follows is ignored. The result is `none` when the value does not fit an `int`
(undefined behaviour). -/
def atoi (s : List Char) : Option Int :=
  let s := s.dropWhile isspace
  let (neg, s) := atoi_sign s
  let v := digits_value (s.takeWhile Char.isDigit)
  let v := if neg then -v else v
  if INT_MIN ≤ v ∧ v ≤ INT_MAX then some v else none

/-- One call `strtok_r(., ",", &sp)` on the text still to scan: leading commas are
skipped; if nothing is left the result is `NULL` (`none`); otherwise the token runs up
to the next comma or the end, and the save pointer is left after that comma. -/
def strtok_r (s : List Char) : Option (List Char) × List Char :=
  match s.dropWhile (fun c => c = ',') with
  | [] => (none, [])
  | c :: cs =>
    (some ((c :: cs).takeWhile (fun c => c ≠ ',')),
     ((c :: cs).dropWhile (fun c => c ≠ ',')).drop 1)

/-- Worker of `tokens`: `cur` is the token being read, reversed. -/
def tokens_aux : List Char → List Char → List (List Char)
  | [], cur => if cur = [] then [] else [cur.reverse]
  | c :: cs, cur =>
    if c = ',' then
      if cur = [] then tokens_aux cs [] else cur.reverse :: tokens_aux cs []
    else tokens_aux cs (c :: cur)

/-- The successive results of `strtok_r(s, ",", &sp)`, `strtok_r(NULL, ",", &sp)`, ...
up to the first `NULL` (see `tokens_eq_strtok_r`). -/
def tokens (s : List Char) : List (List Char) := tokens_aux s []

/-- The body of the `do ... while (p)` loop of `__parse_relay_list`, run on the tokens
still to come; `recurse` is the recursive call `__parse_relay_list(aliases, map,
followed)`. The state is the local `guard` and the two cells `*map` and `*followed`. -/
def parse_loop (recurse : List Char → Int → Int → result (Int × Int)) (d : alias_dir) :
    List (List Char) → Int → Int → Int → result (Int × Int)
  | [], _, map, followed => .ok (map, followed)
  | p :: rest, guard, map, followed =>
    match match_alias d p BUFSIZ with
    | some aliases =>
      -- if (guard-- == 0) error(...)
      if guard = 0 then .error .circular_aliasing else
      -- (*followed)++; __parse_relay_list(aliases, map, followed); goto next;
      match recurse aliases map (followed + 1) with
      | .error e => .error e
      | .ok (map, followed) => parse_loop recurse d rest (guard - 1) map followed
    | none =>
      -- n = atoi(p);
      match atoi p with
      | none => .error .atoi_overflow
      | some n =>
        if n < 1 ∨ n > 8 then .error .usage else
        -- *map |= (1 << (n - 1));
        parse_loop recurse d rest guard (Int.lor map ((1 : Int) <<< (n - 1))) followed

/-- The function `__parse_relay_list(list, map, followed)`; the result is the final
content of `*map` and `*followed`. The first argument bounds the depth of the
recursion. -/
def __parse_relay_list : Nat → alias_dir → List Char → Int → Int → result (Int × Int)
  | 0, _, _, _, _ => .error .out_of_fuel
  | fuel + 1, d, list, map, followed =>
    -- if (*list == '\0') { usage(); exit(1); }
    if list = [] then .error .usage else
    -- p = strtok_r(s, ",", &sp); do { ... } while (p);
    match tokens list with
    | [] => .error .null_token
    | p :: rest => parse_loop (__parse_relay_list fuel d) d (p :: rest) 9999 map followed

/-- The function `parse_relay_list(list, map)`: the result is the final content of
`*map` and the returned count `followed`. -/
def parse_relay_list (fuel : Nat) (d : alias_dir) (list : List Char) (map : Int) :
    result (Int × Int) :=
  __parse_relay_list fuel d list map 0

/-- One node of the list `alias_list`. -/
structure device_alias where
  name : List Char
  map : Int
deriving DecidableEq, Repr

/-- The test that discards an entry in `load_alias_list`. -/
def discards (followed map : Int) : Bool :=
  followed > 1 || map = 0 || Int.land map (map - 1) ≠ 0

/-- The `for (;;)` loop of `load_alias_list` over the names `readdir` returns; a kept
entry becomes the new head of `alias_list`. -/
def load_alias_loop (fuel : Nat) (d : alias_dir) :
    List (List Char) → List device_alias → result (List device_alias)
  | [], alias_list => .ok alias_list
  | d_name :: rest, alias_list =>
    if d_name = ".".toList ∨ d_name = "..".toList then
      load_alias_loop fuel d rest alias_list
    else
      match parse_relay_list fuel d d_name 0 with
      | .error e => .error e
      | .ok (map, followed) =>
        if discards followed map then load_alias_loop fuel d rest alias_list
        else load_alias_loop fuel d rest ({ name := d_name, map := map } :: alias_list)

/-- The function `load_alias_list()`, started with the global `alias_list`. -/
def load_alias_list (fuel : Nat) (d : alias_dir) (alias_list : List device_alias) :
    result (List device_alias) :=
  match d.entries with
  | none => .error .opendir_failed
  | some names => load_alias_loop fuel d names alias_list

/-! ## Status display and firmware query -/

/-- The function `get_alias_name(relay)` on the global `alias_list`: the name of the
first alias whose map has bit `relay`, else `#` followed by the character
`relay + '0' + 1`. -/
def get_alias_name : List device_alias → Int → List Char
  | [], relay => ['#', Char.ofNat (to_uint8 (relay + 48 + 1))]
  | a :: rest, relay =>
    if Int.land a.map ((1 : Int) <<< relay) ≠ 0 then a.name else get_alias_name rest relay

/-- The `printf` conversion `%-8s`: the string, then blanks up to eight characters. -/
def pad8 (s : List Char) : String := String.mk (s ++ List.replicate (8 - s.length) ' ')

/-- The line `power_status` prints for relay `n`. -/
def status_line (alias_list : List device_alias) (pkt : k8090_packet) (n : Nat) : String :=
  pad8 (get_alias_name alias_list (n : Int)) ++ " => "
    ++ (if Int.land (pkt.payload.param1 : Int) ((1 : Int) <<< (n : Int)) ≠ 0 then "ON" else "--")
    ++ (if Int.land (pkt.payload.param2 : Int) ((1 : Int) <<< (n : Int)) ≠ 0 then " (TIMED)" else "")
    ++ "\n"

/-- The function `power_status(fd)`: sends the status query, reads the answer into the
same packet, and prints one line per relay of `status_map`, relay 0 first. -/
def power_status (w : world) (g : maps) (alias_list : List device_alias) :
    world × result Unit :=
  let pkt := init_packet GET_STATUS
  match write_device w pkt with
  | (w, .error e) => (w, .error e)
  | (w, .ok pkt) =>
    match read_device w pkt with
    | (w, .error e) => (w, .error e)
    | (w, .ok pkt) =>
      let relays : List Nat := (List.range 8).filter
        (fun (n : Nat) => Int.land g.status_map ((1 : Int) <<< (n : Int)) ≠ 0)
      ({ w with stdout := w.stdout ++ relays.map (status_line alias_list pkt) }, .ok ())

/-- The function `firmware_version(fd)`: sends the version query, reads the answer into
the same packet and prints `param1 - 16 + 2010` with `%u`, a dot, and `param2`. -/
def firmware_version (w : world) : world × result Unit :=
  let pkt := init_packet GET_VERSION
  match write_device w pkt with
  | (w, .error e) => (w, .error e)
  | (w, .ok pkt) =>
    match read_device w pkt with
    | (w, .error e) => (w, .error e)
    | (w, .ok pkt) =>
      let year : Int := (pkt.payload.param1 : Int) - 16 + 2010
      ({ w with stdout := w.stdout ++
          [toString year.toNat ++ "." ++ toString pkt.payload.param2 ++ "\n"] }, .ok ())

/-- An `int` that holds an 8-bit relay mask. -/
def is_mask (m : Int) : Prop := 0 ≤ m ∧ m < 256

/-! ## Directories used in the examples -/

/-- Two aliases that point at each other: `a -> b` and `b -> a`. -/
def circular_dir : alias_dir :=
  { readlink := fun name =>
      if name = "a".toList then some "b".toList
      else if name = "b".toList then some "a".toList
      else none,
    entries := some [".".toList, "..".toList, "a".toList, "b".toList] }

/-- A directory without any alias. -/
def empty_dir : alias_dir :=
  { readlink := fun _ => none,
    entries := some [".".toList, "..".toList] }

/-- The directory of the examples of the specification: `lamp -> 3` (one relay, direct),
`pair -> 1,2` (two relays) and `hop -> lamp` (one relay through two links). -/
def example_dir : alias_dir :=
  { readlink := fun name =>
      if name = "lamp".toList then some "3".toList
      else if name = "pair".toList then some "1,2".toList
      else if name = "hop".toList then some "lamp".toList
      else none,
    entries := some [".".toList, "..".toList, "lamp".toList, "pair".toList, "hop".toList] }

/-! ## Resolution in the words of the specification -/

/-- The relay named by a numeric token, in the words of the specification: a decimal
number, that is a non-empty string of digits, whose value lies in 1..8. -/
def spec_channel (t : List Char) : Option Int :=
  if t ≠ [] ∧ t.all Char.isDigit = true ∧ 1 ≤ digits_value t ∧ digits_value t ≤ 8 then
    some (digits_value t)
  else none

/-- The mask that has bit `n - 1` alone. -/
def spec_bit (n : Int) : Int := 2 ^ (n - 1).toNat

/-- One token in the words of the specification: alias lookup is tried first and, if it
finds a target, the token stands for the mask the target resolves to, with one more
indirection; otherwise the token is a relay number 1..8 and stands for its bit. -/
def spec_token (resolve : List Char → Option (Int × Int))
    (lookup : List Char → Option (List Char)) (t : List Char) : Option (Int × Int) :=
  match lookup t with
  | some target =>
    match resolve target with
    | some (m, c) => some (m, c + 1)
    | none => none
  | none =>
    match spec_channel t with
    | some n => some (spec_bit n, 0)
    | none => none

/-- The union over the tokens, left to right, of the masks they stand for, with the
total number of indirections followed. -/
def spec_union (resolve : List Char → Option (Int × Int))
    (lookup : List Char → Option (List Char)) : List (List Char) → Option (Int × Int)
  | [] => some (0, 0)
  | t :: ts =>
    match spec_token resolve lookup t, spec_union resolve lookup ts with
    | some (m, c), some (m', c') => some (Int.lor m m', c + c')
    | _, _ => none

/-- The operation `resolve_list` of the specification on a list with at least one token:
the mask and the number of indirections, or `none` when some token is neither an alias
nor a relay number or when the aliases nest deeper than the first argument. -/
def spec_resolve : Nat → (List Char → Option (List Char)) → List Char → Option (Int × Int)
  | 0, _, _ => none
  | fuel + 1, lookup, list =>
    match tokens list with
    | [] => none
    | t :: ts => spec_union (spec_resolve fuel lookup) lookup (t :: ts)

/-- The tokens of a list that are alias names. -/
def alias_tokens (d : alias_dir) (ts : List (List Char)) : List (List Char) :=
  ts.filter (fun t => (d.readlink t).isSome)

/-- A directory with the single alias `x -> 1`. -/
def x_dir : alias_dir :=
  { readlink := fun name => if name = "x".toList then some "1".toList else none,
    entries := some [".".toList, "..".toList, "x".toList] }

/-- The list `x,x,...,x` with `k + 1` tokens. -/
def x_list : Nat → List Char
  | 0 => ['x']
  | k + 1 => 'x' :: ',' :: x_list k

/-! ## The command sequence of `main` -/

/-- Sequencing of two statements: the second runs in the state the first leaves, unless
the first ended the process. -/
def and_then (r : world × result Unit) (next : world → world × result Unit) :
    world × result Unit :=
  match r with
  | (w, .error e) => (w, .error e)
  | (w, .ok _) => next w

/-- Lines 482-502 of `main`, after `open_device` returned: the six guarded calls in source
order, then `return 0`. `load_alias_list` runs on the global `alias_list` just before
`power_status`. -/
def main_commands (w : world) (g : maps) (query_firmware : Int) (fuel : Nat)
    (d : alias_dir) (alias_list : List device_alias) : world × result Unit :=
  -- if (query_firmware) firmware_version(fd);
  and_then (if query_firmware ≠ 0 then firmware_version w else (w, .ok ())) fun w =>
  -- if (off_map) power_off(fd, off_map);
  and_then (if g.off_map ≠ 0 then power_off w g.off_map else (w, .ok ())) fun w =>
  -- if (on_map) power_on(fd, on_map);
  and_then (if g.on_map ≠ 0 then power_on w g.on_map else (w, .ok ())) fun w =>
  -- if (toggle_map) power_toggle(fd);
  and_then (if g.toggle_map ≠ 0 then power_toggle w g else (w, .ok ())) fun w =>
  -- if (cycle_map) power_cycle(fd);
  and_then (if g.cycle_map ≠ 0 then power_cycle w g else (w, .ok ())) fun w =>
  -- if (status_map) { load_alias_list(); power_status(fd); }
  if g.status_map ≠ 0 then
    match load_alias_list fuel d alias_list with
    | .error e => (w, .error e)
    | .ok alias_list => power_status w g alias_list
  else (w, .ok ())

/-- Lines 470-502 of `main`: the merge of the masks left by the option loop, then the
commands. -/
def main_after_options (w : world) (g : maps) (query_firmware : Int) (fuel : Nat)
    (d : alias_dir) (alias_list : List device_alias) : world × result Unit :=
  main_commands w (merge g) query_firmware fuel d alias_list

/-- The seven bytes of a request with the given command code and mask byte. -/
def request_bytes (code mask : Nat) : List Nat :=
  [0x04, code, mask, 0, 0, do_checksum ⟨0x04, code, mask, 0, 0⟩, 0x0f]

/-- The requests the specification orders for given final masks and firmware flag:
firmware query, turn-off, turn-on, toggle, power-cycle as turn-off then turn-on, status
query, each present when its flag or mask is non-zero. -/
def expected_requests (g : maps) (query_firmware : Int) : List (List Nat) :=
  (if query_firmware ≠ 0 then [request_bytes 0x71 0] else [])
  ++ (if g.off_map ≠ 0 then [request_bytes 0x12 (to_uint8 g.off_map)] else [])
  ++ (if g.on_map ≠ 0 then [request_bytes 0x11 (to_uint8 g.on_map)] else [])
  ++ (if g.toggle_map ≠ 0 then [request_bytes 0x14 (to_uint8 g.toggle_map)] else [])
  ++ (if g.cycle_map ≠ 0 then
        [request_bytes 0x12 (to_uint8 g.cycle_map), request_bytes 0x11 (to_uint8 g.cycle_map)]
      else [])
  ++ (if g.status_map ≠ 0 then [request_bytes 0x18 0] else [])

/-- A statement that started in state `w` and ended as `r` handed the transport an
initial part of the requests `pk`, one after the other, and all of them if it returned. -/
def sends (r : world × result Unit) (w : world) (pk : List (List Nat)) : Prop :=
  ∃ sent : List (List Nat),
    r.1.tx = w.tx ++ sent ∧ List.IsPrefix sent pk ∧ (r.2 = .ok () → sent = pk)

/-! ## Bit-level lemmas on `Int` -/

theorem int_eq_of_testBit_eq (a b : Int)
    (h : ∀ k, Int.testBit a k = Int.testBit b k) : a = b := by
  have big : ∀ m n : Nat, Nat.testBit m (m + n) = false := by
    intro m n
    apply Nat.testBit_lt_two_pow
    calc m < 2 ^ m := Nat.lt_two_pow m
      _ ≤ 2 ^ (m + n) := Nat.pow_le_pow_right (by decide) (Nat.le_add_right m n)
  cases a with
  | ofNat m =>
    cases b with
    | ofNat n =>
      congr 1
      exact Nat.eq_of_testBit_eq (fun k => by simpa [Int.testBit] using h k)
    | negSucc n =>
      exfalso
      have h1 := h (m + n)
      have h2 : Nat.testBit n (m + n) = false := by
        rw [Nat.add_comm]; exact big n m
      simp [Int.testBit, big m n, h2] at h1
  | negSucc m =>
    cases b with
    | ofNat n =>
      exfalso
      have h1 := h (m + n)
      have h2 : Nat.testBit n (m + n) = false := by
        rw [Nat.add_comm]; exact big n m
      simp [Int.testBit, big m n, h2] at h1
    | negSucc n =>
      congr 1
      exact Nat.eq_of_testBit_eq (fun k => by simpa [Int.testBit] using h k)

theorem testBit_and_not (x y : Int) (k : Nat) :
    Int.testBit (and_not x y) k = (Int.testBit x k && !Int.testBit y k) := by
  unfold and_not
  rw [Int.testBit_land, Int.testBit_lnot]

/-- On non-negative operands `x & ~y` clears the bits of `y` in `x`; the right
hand side is evaluated by the kernel on literals. -/
theorem and_not_natCast (m n : Nat) :
    and_not (m : Int) (n : Int) = ((m ^^^ (m &&& n) : Nat) : Int) := by
  apply int_eq_of_testBit_eq
  intro k
  rw [testBit_and_not]
  simp only [Int.testBit, Nat.testBit_xor, Nat.testBit_and]
  cases Nat.testBit m k <;> cases Nat.testBit n k <;> rfl

/-- Claim C1: the merge step leaves `toggle` and `status` untouched and yields
`off' = off & ~toggle`, `cycle' = cycle & ~off & ~toggle`,
`on' = on & ~off & ~cycle & ~toggle`; the same is stated bit by bit, and for
`on = off = toggle = 1`, `cycle = 0` the result is `on' = off' = cycle' = 0`,
`toggle' = 1`. -/
theorem merge_precedence (on0 off0 toggle0 cycle0 status0 : Int) :
    merge ⟨on0, off0, toggle0, cycle0, status0⟩ =
        ⟨and_not (and_not (and_not on0 off0) cycle0) toggle0,
         and_not off0 toggle0,
         toggle0,
         and_not (and_not cycle0 off0) toggle0,
         status0⟩
    ∧ (∀ k : Nat,
        (bit_set (merge ⟨on0, off0, toggle0, cycle0, status0⟩).toggle_map k ↔ bit_set toggle0 k)
        ∧ (bit_set (merge ⟨on0, off0, toggle0, cycle0, status0⟩).off_map k ↔
            bit_set off0 k ∧ ¬ bit_set toggle0 k)
        ∧ (bit_set (merge ⟨on0, off0, toggle0, cycle0, status0⟩).cycle_map k ↔
            bit_set cycle0 k ∧ ¬ bit_set off0 k ∧ ¬ bit_set toggle0 k)
        ∧ (bit_set (merge ⟨on0, off0, toggle0, cycle0, status0⟩).on_map k ↔
            bit_set on0 k ∧ ¬ bit_set off0 k ∧ ¬ bit_set cycle0 k ∧ ¬ bit_set toggle0 k))
    ∧ merge ⟨1, 1, 1, 0, status0⟩ = ⟨0, 0, 1, 0, status0⟩ := by
  have hon : and_not (and_not (and_not on0 off0) (and_not cycle0 off0)) toggle0
      = and_not (and_not (and_not on0 off0) cycle0) toggle0 := by
    apply int_eq_of_testBit_eq
    intro k
    simp only [testBit_and_not]
    cases Int.testBit on0 k <;> cases Int.testBit off0 k <;>
      cases Int.testBit cycle0 k <;> cases Int.testBit toggle0 k <;> rfl
  refine ⟨?_, ?_, ?_⟩
  · simp only [merge, hon]
  · intro k
    simp only [merge, bit_set, testBit_and_not]
    cases Int.testBit on0 k <;> cases Int.testBit off0 k <;>
      cases Int.testBit cycle0 k <;> cases Int.testBit toggle0 k <;> simp
  · have e1 : and_not 1 1 = 0 := and_not_natCast 1 1
    have e2 : and_not 0 1 = 0 := and_not_natCast 0 1
    have e3 : and_not 0 0 = 0 := and_not_natCast 0 0
    simp only [merge, e1, e2, e3]

/-- Claim C2: after the merge step no bit is set in two of the masks `on`, `off`,
`toggle`, `cycle`: the six pairwise intersections are zero, and no bit position
belongs to two of them. -/
theorem merge_disjoint (g : maps) :
    (Int.land (merge g).on_map (merge g).off_map = 0
      ∧ Int.land (merge g).on_map (merge g).toggle_map = 0
      ∧ Int.land (merge g).on_map (merge g).cycle_map = 0
      ∧ Int.land (merge g).off_map (merge g).toggle_map = 0
      ∧ Int.land (merge g).off_map (merge g).cycle_map = 0
      ∧ Int.land (merge g).toggle_map (merge g).cycle_map = 0)
    ∧ ∀ k : Nat,
        ¬ (bit_set (merge g).on_map k ∧ bit_set (merge g).off_map k)
        ∧ ¬ (bit_set (merge g).on_map k ∧ bit_set (merge g).toggle_map k)
        ∧ ¬ (bit_set (merge g).on_map k ∧ bit_set (merge g).cycle_map k)
        ∧ ¬ (bit_set (merge g).off_map k ∧ bit_set (merge g).toggle_map k)
        ∧ ¬ (bit_set (merge g).off_map k ∧ bit_set (merge g).cycle_map k)
        ∧ ¬ (bit_set (merge g).toggle_map k ∧ bit_set (merge g).cycle_map k) := by
  have zero : ∀ k, Int.testBit 0 k = false := fun k => by simp [Int.testBit]
  have key : ∀ k : Nat,
      (Int.testBit (merge g).on_map k && Int.testBit (merge g).off_map k) = false
      ∧ (Int.testBit (merge g).on_map k && Int.testBit (merge g).toggle_map k) = false
      ∧ (Int.testBit (merge g).on_map k && Int.testBit (merge g).cycle_map k) = false
      ∧ (Int.testBit (merge g).off_map k && Int.testBit (merge g).toggle_map k) = false
      ∧ (Int.testBit (merge g).off_map k && Int.testBit (merge g).cycle_map k) = false
      ∧ (Int.testBit (merge g).toggle_map k && Int.testBit (merge g).cycle_map k) = false := by
    intro k
    simp only [merge, testBit_and_not]
    cases Int.testBit g.on_map k <;> cases Int.testBit g.off_map k <;>
      cases Int.testBit g.cycle_map k <;> cases Int.testBit g.toggle_map k <;> simp
  refine ⟨⟨?_, ?_, ?_, ?_, ?_, ?_⟩, ?_⟩
  · exact int_eq_of_testBit_eq _ _ (fun k => by rw [Int.testBit_land, zero]; exact (key k).1)
  · exact int_eq_of_testBit_eq _ _ (fun k => by rw [Int.testBit_land, zero]; exact (key k).2.1)
  · exact int_eq_of_testBit_eq _ _ (fun k => by rw [Int.testBit_land, zero]; exact (key k).2.2.1)
  · exact int_eq_of_testBit_eq _ _ (fun k => by rw [Int.testBit_land, zero]; exact (key k).2.2.2.1)
  · exact int_eq_of_testBit_eq _ _ (fun k => by rw [Int.testBit_land, zero]; exact (key k).2.2.2.2.1)
  · exact int_eq_of_testBit_eq _ _ (fun k => by rw [Int.testBit_land, zero]; exact (key k).2.2.2.2.2)
  · intro k
    have h := key k
    simp only [bit_set]
    simp only [Bool.and_eq_false_iff] at h
    obtain ⟨h1, h2, h3, h4, h5, h6⟩ := h
    refine ⟨?_, ?_, ?_, ?_, ?_, ?_⟩ <;> rintro ⟨ha, hb⟩
    · rcases h1 with h | h <;> simp_all
    · rcases h2 with h | h <;> simp_all
    · rcases h3 with h | h <;> simp_all
    · rcases h4 with h | h <;> simp_all
    · rcases h5 with h | h <;> simp_all
    · rcases h6 with h | h <;> simp_all

theorem to_uint8_lnot_add_one (c : Nat) :
    to_uint8 (Int.lnot (c : Int) + 1) = (256 - c % 256) % 256 := by
  have h : Int.lnot (c : Int) + 1 = -(c : Int) := by
    show Int.negSucc c + 1 = -(c : Int)
    rw [Int.negSucc_eq]; ring
  unfold to_uint8
  rw [h]
  omega

/-- Claim C3: `do_checksum` of a payload is minus the sum of its five bytes modulo 256,
so the five bytes and the checksum add up to 0 modulo 256; the result is a byte and
is the same whatever the checksum and end-marker fields of the packet hold. -/
theorem do_checksum_negated_sum (stx command mask param1 param2 : Nat) :
    ((do_checksum ⟨stx, command, mask, param1, param2⟩ : Nat) : Int)
        = (-((stx + command + mask + param1 + param2 : Nat) : Int)) % 256
    ∧ (stx + command + mask + param1 + param2
        + do_checksum ⟨stx, command, mask, param1, param2⟩) % 256 = 0
    ∧ do_checksum ⟨stx, command, mask, param1, param2⟩ < 256
    ∧ ∀ c e c' e' : Nat,
        do_checksum (k8090_packet.mk ⟨stx, command, mask, param1, param2⟩ c e).payload
          = do_checksum (k8090_packet.mk ⟨stx, command, mask, param1, param2⟩ c' e').payload := by
  have h : do_checksum ⟨stx, command, mask, param1, param2⟩
      = (256 - (stx + command + mask + param1 + param2) % 256) % 256 := by
    unfold do_checksum
    rw [to_uint8_lnot_add_one]
    simp only [k8090_payload.bytes, List.foldl]
    omega
  refine ⟨?_, ?_, ?_, ?_⟩
  · rw [h]; omega
  · rw [h]; omega
  · rw [h]; omega
  · intros; rfl

theorem of_bytes_bytes (pkt : k8090_packet) : k8090_packet.of_bytes pkt.bytes = pkt := by
  rfl

/-- What `write_device` hands to `write`: the packet with the start marker, the checksum
and the end marker filled in. -/
theorem write_device_tx (w : world) (pkt : k8090_packet) :
    (write_device w pkt).1.tx = w.tx ++
      [[PACKET_STX, pkt.payload.command, pkt.payload.mask, pkt.payload.param1,
        pkt.payload.param2,
        do_checksum { pkt.payload with stx := PACKET_STX }, PACKET_ETX]] := by
  unfold write_device sys_write
  cases hd : w.debug <;> cases hr : w.write_ret <;>
    simp [dump_packet, hr, k8090_packet.bytes, k8090_payload.bytes, sizeof_k8090_packet,
      sizeof_k8090_payload, sizeof_uint8_t] <;>
    split <;> simp

/-- Claim C4: the bytes `write_device` hands to the transport, fed back as the next
`read`, pass the checksum validation of `read_device`: the result is the decoded
packet, never the bad-checksum error, whatever the buffer held before. -/
theorem write_then_read_validates (w : world) (pkt : k8090_packet) (b : List Nat)
    (w2 : world) (buf : k8090_packet) (rest : List (Option (List Nat)))
    (hsent : (write_device w pkt).1.tx = w.tx ++ [b])
    (hback : w2.rx = some b :: rest) :
    (read_device w2 buf).2 = .ok (k8090_packet.of_bytes b)
    ∧ (read_device w2 buf).2 ≠ .error .bad_checksum
    ∧ k8090_packet.of_bytes b =
        { payload := { pkt.payload with stx := PACKET_STX },
          checksum := do_checksum { pkt.payload with stx := PACKET_STX },
          etx := PACKET_ETX } := by
  rw [write_device_tx] at hsent
  have hb : b = [PACKET_STX, pkt.payload.command, pkt.payload.mask, pkt.payload.param1,
        pkt.payload.param2,
        do_checksum { pkt.payload with stx := PACKET_STX }, PACKET_ETX] := by
    have := List.append_cancel_left hsent
    simpa using this.symm
  have hdec : k8090_packet.of_bytes b =
        { payload := { pkt.payload with stx := PACKET_STX },
          checksum := do_checksum { pkt.payload with stx := PACKET_STX },
          etx := PACKET_ETX } := by
    rw [hb]; rfl
  have hread : (read_device w2 buf).2 = .ok (k8090_packet.of_bytes b) := by
    unfold read_device sys_read
    rw [hback]
    have htake : List.take sizeof_k8090_packet b = b := by rw [hb]; rfl
    have hlen : b.length = 7 := by rw [hb]; rfl
    have hdrop : List.drop 7 buf.bytes = [] := by rfl
    simp only [htake, hlen, hdrop, List.append_nil]
    rw [hdec]
    cases w2.debug <;> simp
  refine ⟨hread, ?_, hdec⟩
  rw [hread]
  simp

/-- Witness of `write_then_read_validates`: the turn-on packet for mask 5. -/
theorem write_then_read_validates_witness :
    (write_device ⟨false, [], [], [], [], []⟩ ⟨⟨0, 17, 5, 0, 0⟩, 0, 0⟩).1.tx
        = [] ++ [[4, 17, 5, 0, 0, 230, 15]]
    ∧ (read_device ⟨false, [], [], [], [some [4, 17, 5, 0, 0, 230, 15]], []⟩
        (init_packet 0)).2 = .ok ⟨⟨4, 17, 5, 0, 0⟩, 230, 15⟩ :=
  ⟨by decide,
   (write_then_read_validates ⟨false, [], [], [], [], []⟩ ⟨⟨0, 17, 5, 0, 0⟩, 0, 0⟩
      [4, 17, 5, 0, 0, 230, 15] ⟨false, [], [], [], [some [4, 17, 5, 0, 0, 230, 15]], []⟩
      (init_packet 0) [] (by decide) rfl).1⟩

theorem sys_read_tx (w : world) (buf : List Nat) (n : Nat) :
    (sys_read w buf n).1.tx = w.tx := by
  unfold sys_read
  rcases hrx : w.rx with _ | ⟨_ | bs, rest⟩ <;> rfl

theorem read_device_tx (w : world) (pkt : k8090_packet) :
    (read_device w pkt).1.tx = w.tx := by
  have h := sys_read_tx w pkt.bytes sizeof_k8090_packet
  unfold read_device
  rcases hs : sys_read w pkt.bytes sizeof_k8090_packet with ⟨w1, buf, ret⟩
  rw [hs] at h
  dsimp only at h ⊢
  split_ifs <;> simp [dump_packet, h]

theorem to_uint8_of_byte (m : Int) (h0 : 0 ≤ m) (h1 : m < 256) : to_uint8 m = m.toNat := by
  unfold to_uint8
  omega

theorem power_on_tx (w : world) (m : Int) :
    (power_on w m).1.tx = w.tx ++
      [[0x04, 0x11, to_uint8 m, 0, 0, do_checksum ⟨0x04, 0x11, to_uint8 m, 0, 0⟩, 0x0f]] := by
  have h := write_device_tx w
    { (init_packet TURN_ON) with
        payload := { (init_packet TURN_ON).payload with mask := to_uint8 m } }
  unfold power_on
  simp only []
  rcases hw : write_device w
    { (init_packet TURN_ON) with
        payload := { (init_packet TURN_ON).payload with mask := to_uint8 m } } with ⟨w1, r⟩
  rw [hw] at h
  cases r <;> exact h

theorem power_off_tx (w : world) (m : Int) :
    (power_off w m).1.tx = w.tx ++
      [[0x04, 0x12, to_uint8 m, 0, 0, do_checksum ⟨0x04, 0x12, to_uint8 m, 0, 0⟩, 0x0f]] := by
  have h := write_device_tx w
    { (init_packet TURN_OFF) with
        payload := { (init_packet TURN_OFF).payload with mask := to_uint8 m } }
  unfold power_off
  simp only []
  rcases hw : write_device w
    { (init_packet TURN_OFF) with
        payload := { (init_packet TURN_OFF).payload with mask := to_uint8 m } } with ⟨w1, r⟩
  rw [hw] at h
  cases r <;> exact h

theorem power_toggle_tx (w : world) (g : maps) :
    (power_toggle w g).1.tx = w.tx ++
      [[0x04, 0x14, to_uint8 g.toggle_map, 0, 0,
        do_checksum ⟨0x04, 0x14, to_uint8 g.toggle_map, 0, 0⟩, 0x0f]] := by
  have h := write_device_tx w
    { (init_packet TOGGLE) with
        payload := { (init_packet TOGGLE).payload with mask := to_uint8 g.toggle_map } }
  unfold power_toggle
  simp only []
  rcases hw : write_device w
    { (init_packet TOGGLE) with
        payload := { (init_packet TOGGLE).payload with mask := to_uint8 g.toggle_map } }
    with ⟨w1, r⟩
  rw [hw] at h
  cases r <;> exact h

theorem power_status_tx (w : world) (g : maps) (alias_list : List device_alias) :
    (power_status w g alias_list).1.tx = w.tx ++
      [[0x04, 0x18, 0, 0, 0, do_checksum ⟨0x04, 0x18, 0, 0, 0⟩, 0x0f]] := by
  have h := write_device_tx w (init_packet GET_STATUS)
  unfold power_status
  dsimp only
  rcases hw : write_device w (init_packet GET_STATUS) with ⟨w1, r⟩
  rw [hw] at h
  cases r with
  | error e => exact h
  | ok p =>
    dsimp only
    have h2 := read_device_tx w1 p
    rcases hr : read_device w1 p with ⟨w2, r2⟩
    rw [hr] at h2
    cases r2 <;> dsimp only at h2 ⊢ <;> rw [h2] <;> exact h

theorem firmware_version_tx (w : world) :
    (firmware_version w).1.tx = w.tx ++
      [[0x04, 0x71, 0, 0, 0, do_checksum ⟨0x04, 0x71, 0, 0, 0⟩, 0x0f]] := by
  have h := write_device_tx w (init_packet GET_VERSION)
  unfold firmware_version
  dsimp only
  rcases hw : write_device w (init_packet GET_VERSION) with ⟨w1, r⟩
  rw [hw] at h
  cases r with
  | error e => exact h
  | ok p =>
    dsimp only
    have h2 := read_device_tx w1 p
    rcases hr : read_device w1 p with ⟨w2, r2⟩
    rw [hr] at h2
    cases r2 <;> dsimp only at h2 ⊢ <;> rw [h2] <;> exact h

/-- Claim C9: for an 8-bit mask `m`, turn-on, turn-off and toggle hand the transport the
bytes `0x04`, the command code (`0x11`, `0x12`, `0x14`), `m`, `0`, `0`, the checksum of
these five bytes, `0x0f`, in this order; get-status and get-firmware-version send the
same layout with codes `0x18` and `0x71` and mask 0. -/
theorem command_bytes_on_the_wire (w : world) (g : maps) (alias_list : List device_alias)
    (m : Int) (h0 : 0 ≤ m) (h1 : m < 256) :
    (power_on w m).1.tx = w.tx ++
        [[0x04, 0x11, m.toNat, 0, 0, do_checksum ⟨0x04, 0x11, m.toNat, 0, 0⟩, 0x0f]]
    ∧ (power_off w m).1.tx = w.tx ++
        [[0x04, 0x12, m.toNat, 0, 0, do_checksum ⟨0x04, 0x12, m.toNat, 0, 0⟩, 0x0f]]
    ∧ (power_toggle w { g with toggle_map := m }).1.tx = w.tx ++
        [[0x04, 0x14, m.toNat, 0, 0, do_checksum ⟨0x04, 0x14, m.toNat, 0, 0⟩, 0x0f]]
    ∧ (power_status w g alias_list).1.tx = w.tx ++
        [[0x04, 0x18, 0, 0, 0, do_checksum ⟨0x04, 0x18, 0, 0, 0⟩, 0x0f]]
    ∧ (firmware_version w).1.tx = w.tx ++
        [[0x04, 0x71, 0, 0, 0, do_checksum ⟨0x04, 0x71, 0, 0, 0⟩, 0x0f]] := by
  refine ⟨?_, ?_, ?_, power_status_tx w g alias_list, firmware_version_tx w⟩
  · rw [power_on_tx, to_uint8_of_byte m h0 h1]
  · rw [power_off_tx, to_uint8_of_byte m h0 h1]
  · rw [power_toggle_tx, to_uint8_of_byte m h0 h1]

/-- Witness of `command_bytes_on_the_wire`: mask `0b10000001` on an idle line. -/
theorem command_bytes_on_the_wire_witness :
    (0 : Int) ≤ 129 ∧ (129 : Int) < 256
    ∧ (power_on ⟨false, [], [], [], [], []⟩ 129).1.tx
        = [[0x04, 0x11, 129, 0, 0, 0x6a, 0x0f]] := by
  refine ⟨by decide, by decide, ?_⟩
  have h := (command_bytes_on_the_wire ⟨false, [], [], [], [], []⟩ ⟨0, 0, 0, 0, 0⟩ [] 129
    (by decide) (by decide)).1
  rw [h]
  decide

/-- Counterexample to claim C10 as stated: the packet is seven bytes, not eight; the
turn-on command for relay 1 puts seven bytes on the line and the read that follows
asks for seven. -/
theorem packet_is_seven_bytes_not_eight :
    sizeof_k8090_packet = 7
    ∧ (power_on ⟨false, [], [], [], [], []⟩ 1).1.tx = [[0x04, 0x11, 1, 0, 0, 0xea, 0x0f]]
    ∧ ¬ (∀ b ∈ (power_on ⟨false, [], [], [], [], []⟩ 1).1.tx, b.length = 8)
    ∧ (read_device ⟨false, [], [], [], [], []⟩ (init_packet GET_STATUS)).1.rx_req = [7]
    ∧ ¬ (∀ n ∈ (read_device ⟨false, [], [], [], [], []⟩ (init_packet GET_STATUS)).1.rx_req,
          n = 8) := by
  decide

theorem sys_read_rx_req (w : world) (buf : List Nat) (n : Nat) :
    (sys_read w buf n).1.rx_req = w.rx_req ++ [n] := by
  unfold sys_read
  rcases hrx : w.rx with _ | ⟨_ | bs, rest⟩ <;> rfl

theorem read_device_rx_req (w : world) (pkt : k8090_packet) :
    (read_device w pkt).1.rx_req = w.rx_req ++ [sizeof_k8090_packet] := by
  have h := sys_read_rx_req w pkt.bytes sizeof_k8090_packet
  unfold read_device
  rcases hs : sys_read w pkt.bytes sizeof_k8090_packet with ⟨w1, buf, ret⟩
  rw [hs] at h
  dsimp only at h ⊢
  split_ifs <;> simp [dump_packet, h]

/-- Claim C10 as amended: the packet is a fixed 7-byte structure; for every packet and
every state of the line `write_device` hands exactly one buffer of 7 bytes to `write`,
and `read_device` asks `read` for exactly 7 bytes, once. -/
theorem packet_is_seven_bytes (w : world) (pkt : k8090_packet) :
    sizeof_k8090_packet = 7
    ∧ pkt.bytes.length = 7
    ∧ (∃ b : List Nat, (write_device w pkt).1.tx = w.tx ++ [b] ∧ b.length = 7)
    ∧ (read_device w pkt).1.rx_req = w.rx_req ++ [7] := by
  refine ⟨rfl, rfl, ⟨_, write_device_tx w pkt, rfl⟩, ?_⟩
  rw [read_device_rx_req]
  rfl

/-! ## The tokenizer -/

theorem tokens_aux_cons_cur (s : List Char) (c : Char) (cur : List Char) :
    tokens_aux s (c :: cur) =
      ((c :: cur).reverse ++ s.takeWhile (fun x => x ≠ ','))
        :: tokens_aux ((s.dropWhile (fun x => x ≠ ',')).drop 1) [] := by
  induction s generalizing c cur with
  | nil => simp [tokens_aux]
  | cons x xs ih =>
    by_cases hx : x = ','
    · subst hx
      simp [tokens_aux]
    · rw [tokens_aux, if_neg hx, ih x (c :: cur)]
      simp [List.takeWhile_cons, List.dropWhile_cons, hx]

theorem tokens_aux_nil_dropWhile (s : List Char) :
    tokens_aux s [] = tokens_aux (s.dropWhile (fun x => x = ',')) [] := by
  induction s with
  | nil => rfl
  | cons x xs ih =>
    by_cases hx : x = ','
    · subst hx
      simp only [tokens_aux, if_true, List.dropWhile_cons, decide_True]
      exact ih
    · simp [List.dropWhile_cons, hx]

/-- The list `tokens s` is what successive `strtok_r` calls return: nothing when the first
call returns `NULL`, else the token followed by the tokens of the text at the save
pointer. -/
theorem tokens_eq_strtok_r (s : List Char) :
    tokens s = match strtok_r s with
      | (none, _) => []
      | (some t, sp) => t :: tokens sp := by
  unfold tokens strtok_r
  rw [tokens_aux_nil_dropWhile]
  cases h : s.dropWhile (fun x => x = ',') with
  | nil => rfl
  | cons c cs =>
    have hc : c ≠ ',' := by
      intro hc
      have := List.head_dropWhile_not (fun x => decide (x = ',')) s
      simp [h, hc] at this
    simp only []
    rw [tokens_aux, if_neg hc, tokens_aux_cons_cur]
    simp [List.takeWhile_cons, List.dropWhile_cons, hc]

/-- Claim C6, evaluated on the code: with `a -> b` and `b -> a`, resolving the list `a`
never reaches the circular-aliasing exit. Every call starts its own `guard` at 9999 and
meets one alias token, so whatever depth is allowed the recursion is still running when
that depth is used up; the same holds from `b`. -/
theorem circular_aliases_recurse_without_bound (fuel : Nat) (map followed : Int) :
    __parse_relay_list fuel circular_dir "a".toList map followed = .error .out_of_fuel
    ∧ __parse_relay_list fuel circular_dir "b".toList map followed = .error .out_of_fuel
    ∧ __parse_relay_list fuel circular_dir "a".toList map followed
        ≠ .error .circular_aliasing := by
  have key : ∀ (n : Nat) (m f : Int),
      __parse_relay_list n circular_dir "a".toList m f = .error .out_of_fuel
      ∧ __parse_relay_list n circular_dir "b".toList m f = .error .out_of_fuel := by
    intro n
    induction n with
    | zero => intro m f; exact ⟨rfl, rfl⟩
    | succ n ih =>
      intro m f
      have ta : tokens "a".toList = ["a".toList] := by decide
      have tb : tokens "b".toList = ["b".toList] := by decide
      have ma : match_alias circular_dir "a".toList BUFSIZ = some "b".toList := by decide
      have mb : match_alias circular_dir "b".toList BUFSIZ = some "a".toList := by decide
      have na : ¬ "a".toList = [] := by decide
      have nb : ¬ "b".toList = [] := by decide
      constructor
      · rw [__parse_relay_list, if_neg na, ta]
        simp only [parse_loop, ma]
        rw [(ih m (f + 1)).2]
        simp
      · rw [__parse_relay_list, if_neg nb, tb]
        simp only [parse_loop, mb]
        rw [(ih m (f + 1)).1]
        simp
  refine ⟨(key fuel map followed).1, (key fuel map followed).2, ?_⟩
  rw [(key fuel map followed).1]
  decide

/-- Counterexample to claim C7 as stated: `3abc` is not an alias and is not a string of
digits, yet it is accepted as relay 3 and sets bit 2; so are ` 3` and `+3`, with a
leading blank or a sign. -/
theorem trailing_text_is_accepted :
    empty_dir.readlink "3abc".toList = none
    ∧ "3abc".toList.all Char.isDigit = false
    ∧ atoi "3abc".toList = some 3
    ∧ parse_relay_list 1 empty_dir "3abc".toList 0 = .ok (4, 0)
    ∧ parse_relay_list 1 empty_dir " 3".toList 0 = .ok (4, 0)
    ∧ parse_relay_list 1 empty_dir "+3".toList 0 = .ok (4, 0) := by
  decide

/-- Claim C7 as amended: a token that is not an alias name and whose `atoi` value (blanks
skipped, an optional sign, the leading digits, 0 when there are none) lies outside 1..8
ends the run with the usage error as soon as the loop reaches it, whatever was
accumulated before, so no bit is set for it; a list made of that token alone fails the
same way. The tokens `0`, `9` and `abc` have the values 0, 9 and 0. -/
theorem token_outside_1_8_is_usage_error
    (recurse : List Char → Int → Int → result (Int × Int)) (d : alias_dir)
    (p : List Char) (rest : List (List Char)) (guard map followed n : Int) (fuel : Nat)
    (hno : d.readlink p = none) (hn : atoi p = some n) (hr : n < 1 ∨ n > 8) :
    parse_loop recurse d (p :: rest) guard map followed = .error .usage
    ∧ (tokens p = [p] → __parse_relay_list (fuel + 1) d p map followed = .error .usage)
    ∧ atoi "0".toList = some 0 ∧ atoi "9".toList = some 9 ∧ atoi "abc".toList = some 0 := by
  have hm : match_alias d p BUFSIZ = none := by
    unfold match_alias; rw [hno]
  have hloop : ∀ g m f, parse_loop recurse d (p :: rest) g m f = .error .usage := by
    intro g m f
    rw [parse_loop, hm]
    simp only [hn]
    rw [if_pos hr]
  refine ⟨hloop guard map followed, ?_, by decide, by decide, by decide⟩
  intro ht
  have hp : p ≠ [] := by
    intro h
    rw [h] at ht
    exact absurd ht (by decide)
  rw [__parse_relay_list, if_neg hp, ht]
  simp only []
  rw [parse_loop, hm]
  simp only [hn]
  rw [if_pos hr]

/-- Witness of `token_outside_1_8_is_usage_error`: the token `9`, reached after relay 1
was accumulated. -/
theorem token_outside_1_8_is_usage_error_witness :
    empty_dir.readlink "9".toList = none ∧ atoi "9".toList = some 9
    ∧ parse_relay_list 1 empty_dir "1,9".toList 0 = .error .usage
    ∧ parse_loop (__parse_relay_list 0 empty_dir) empty_dir ["9".toList] 9999 1 0
        = .error .usage :=
  ⟨by decide, by decide, by decide,
   (token_outside_1_8_is_usage_error (__parse_relay_list 0 empty_dir) empty_dir "9".toList
      [] 9999 1 0 9 0 (by decide) (by decide) (by decide)).1⟩

/-! ## Masks stay within eight bits -/

theorem lor_bit_is_mask (map n : Int) (hm : is_mask map) (h1 : ¬ (n < 1 ∨ n > 8)) :
    is_mask (Int.lor map ((1 : Int) <<< (n - 1))) := by
  obtain ⟨m, rfl⟩ := Int.eq_ofNat_of_zero_le hm.1
  have hm' : m < 2 ^ 8 := by have := hm.2; omega
  have hn : 1 ≤ n ∧ n ≤ 8 := by omega
  obtain ⟨hn1, hn8⟩ := hn
  have hb : ∃ b : Nat, b < 2 ^ 8 ∧ (1 : Int) <<< (n - 1) = (b : Int) := by
    interval_cases n
    · exact ⟨1, by decide, rfl⟩
    · exact ⟨2, by decide, rfl⟩
    · exact ⟨4, by decide, rfl⟩
    · exact ⟨8, by decide, rfl⟩
    · exact ⟨16, by decide, rfl⟩
    · exact ⟨32, by decide, rfl⟩
    · exact ⟨64, by decide, rfl⟩
    · exact ⟨128, by decide, rfl⟩
  obtain ⟨b, hb, hbe⟩ := hb
  rw [hbe]
  have hl : Int.lor (m : Int) (b : Int) = ((m ||| b : Nat) : Int) := rfl
  rw [hl]
  have := Nat.or_lt_two_pow hm' hb
  constructor
  · exact Int.natCast_nonneg _
  · have h256 : (2 : Nat) ^ 8 = 256 := by norm_num
    omega

theorem parse_loop_is_mask (recurse : List Char → Int → Int → result (Int × Int))
    (d : alias_dir)
    (hrec : ∀ l m f m' f', is_mask m → recurse l m f = .ok (m', f') → is_mask m')
    (ts : List (List Char)) :
    ∀ (guard map followed map' followed' : Int), is_mask map →
      parse_loop recurse d ts guard map followed = .ok (map', followed') → is_mask map' := by
  induction ts with
  | nil =>
    intro guard map followed map' followed' hm h
    simp only [parse_loop, result.ok.injEq, Prod.mk.injEq] at h
    rw [← h.1]; exact hm
  | cons p rest ih =>
    intro guard map followed map' followed' hm h
    rw [parse_loop] at h
    cases hma : match_alias d p BUFSIZ with
    | some aliases =>
      simp only [hma] at h
      by_cases hg : guard = 0
      · simp [hg] at h
      · rw [if_neg hg] at h
        cases hr : recurse aliases map (followed + 1) with
        | error e => simp [hr] at h
        | ok v =>
          obtain ⟨m1, f1⟩ := v
          simp only [hr] at h
          exact ih _ _ _ _ _ (hrec _ _ _ _ _ hm hr) h
    | none =>
      simp only [hma] at h
      cases hn : atoi p with
      | none => simp [hn] at h
      | some n =>
        simp only [hn] at h
        by_cases hr : n < 1 ∨ n > 8
        · simp [hr] at h
        · rw [if_neg hr] at h
          exact ih _ _ _ _ _ (lor_bit_is_mask map n hm hr) h

/-- A resolution started on an 8-bit mask ends on an 8-bit mask. -/
theorem parse_is_mask (d : alias_dir) (fuel : Nat) :
    ∀ (list : List Char) (map followed map' followed' : Int), is_mask map →
      __parse_relay_list fuel d list map followed = .ok (map', followed') → is_mask map' := by
  induction fuel with
  | zero =>
    intro list map followed map' followed' _ h
    simp [__parse_relay_list] at h
  | succ n ih =>
    intro list map followed map' followed' hm h
    rw [__parse_relay_list] at h
    by_cases hl : list = []
    · simp [hl] at h
    · rw [if_neg hl] at h
      cases ht : tokens list with
      | nil => simp [ht] at h
      | cons p rest =>
        simp only [ht] at h
        exact parse_loop_is_mask _ d ih (p :: rest) _ _ _ _ _ hm h

theorem single_bit_test (map : Int) (hm : is_mask map) :
    (¬ map = 0 ∧ Int.land map (map - 1) = 0) ↔ map ∈ [1, 2, 4, 8, 16, 32, 64, 128] := by
  obtain ⟨h0, h1⟩ := hm
  by_cases hz : map = 0
  · subst hz
    simp
  · have hpos : 1 ≤ map := by omega
    interval_cases map <;> simp <;> decide

theorem discards_iff (followed map : Int) (hm : is_mask map) :
    discards followed map = false ↔
      followed ≤ 1 ∧ map ∈ [1, 2, 4, 8, 16, 32, 64, 128] := by
  rw [← single_bit_test map hm]
  unfold discards
  simp only [Bool.or_eq_false_iff, decide_eq_false_iff_not, not_lt, ne_eq, not_not]
  tauto

theorem load_alias_loop_keeps (fuel : Nat) (d : alias_dir) (names : List (List Char)) :
    ∀ alias_list : List device_alias,
      (∀ name ∈ names, name ≠ ".".toList → name ≠ "..".toList →
        ∃ map followed, parse_relay_list fuel d name 0 = .ok (map, followed)) →
      ∃ kept, load_alias_loop fuel d names alias_list = .ok kept
        ∧ ∀ a : device_alias, a ∈ kept ↔
            (a ∈ alias_list
              ∨ (a.name ∈ names ∧ a.name ≠ ".".toList ∧ a.name ≠ "..".toList
                  ∧ ∃ followed, parse_relay_list fuel d a.name 0 = .ok (a.map, followed)
                      ∧ followed ≤ 1 ∧ a.map ∈ [1, 2, 4, 8, 16, 32, 64, 128])) := by
  induction names with
  | nil =>
    intro alias_list _
    exact ⟨alias_list, rfl, fun a => by simp⟩
  | cons n rest ih =>
    intro alias_list hp
    have hp' : ∀ name ∈ rest, name ≠ ".".toList → name ≠ "..".toList →
        ∃ map followed, parse_relay_list fuel d name 0 = .ok (map, followed) :=
      fun name hn => hp name (List.mem_cons_of_mem _ hn)
    rw [load_alias_loop]
    by_cases hdot : n = ".".toList ∨ n = "..".toList
    · rw [if_pos hdot]
      obtain ⟨kept, hk, hiff⟩ := ih alias_list hp'
      refine ⟨kept, hk, fun a => ?_⟩
      rw [hiff a]
      constructor
      · rintro (h | ⟨h1, h2⟩)
        · exact Or.inl h
        · exact Or.inr ⟨List.mem_cons_of_mem _ h1, h2⟩
      · rintro (h | ⟨h1, h2, h3, h4⟩)
        · exact Or.inl h
        · rcases List.mem_cons.mp h1 with h | h
          · exfalso
            rcases hdot with hd | hd
            · exact h2 (h.trans hd)
            · exact h3 (h.trans hd)
          · exact Or.inr ⟨h, h2, h3, h4⟩
    · rw [if_neg hdot]
      have hnd : n ≠ ".".toList ∧ n ≠ "..".toList := by
        constructor
        · exact fun h => hdot (Or.inl h)
        · exact fun h => hdot (Or.inr h)
      obtain ⟨map, followed, hpn⟩ := hp n (List.mem_cons_self _ _) hnd.1 hnd.2
      have hmask : is_mask map :=
        parse_is_mask d fuel n 0 0 map followed ⟨le_refl 0, by decide⟩ hpn
      simp only [hpn]
      cases hdis : discards followed map with
      | true =>
        simp only [if_true]
        obtain ⟨kept, hk, hiff⟩ := ih alias_list hp'
        refine ⟨kept, hk, fun a => ?_⟩
        rw [hiff a]
        constructor
        · rintro (h | ⟨h1, h2⟩)
          · exact Or.inl h
          · exact Or.inr ⟨List.mem_cons_of_mem _ h1, h2⟩
        · rintro (h | ⟨h1, h2, h3, f, h4, h5, h6⟩)
          · exact Or.inl h
          · rcases List.mem_cons.mp h1 with h | h
            · exfalso
              rw [h, hpn] at h4
              simp only [result.ok.injEq, Prod.mk.injEq] at h4
              have hkeep := (discards_iff followed map hmask).mpr
                ⟨by rw [h4.2]; exact h5, by rw [h4.1]; exact h6⟩
              rw [hdis] at hkeep
              exact absurd hkeep (by decide)
            · exact Or.inr ⟨h, h2, h3, f, h4, h5, h6⟩
      | false =>
        simp only [Bool.false_eq_true, if_false]
        obtain ⟨kept, hk, hiff⟩ := ih ({ name := n, map := map } :: alias_list) hp'
        refine ⟨kept, hk, fun a => ?_⟩
        rw [hiff a]
        have hkeep := (discards_iff followed map hmask).mp hdis
        constructor
        · rintro (h | ⟨h1, h2⟩)
          · rcases List.mem_cons.mp h with h | h
            · right
              subst h
              exact ⟨List.mem_cons_self _ _, hnd.1, hnd.2, followed, hpn, hkeep.1, hkeep.2⟩
            · exact Or.inl h
          · exact Or.inr ⟨List.mem_cons_of_mem _ h1, h2⟩
        · rintro (h | ⟨h1, h2, h3, f, h4, h5, h6⟩)
          · exact Or.inl (List.mem_cons_of_mem _ h)
          · rcases List.mem_cons.mp h1 with h | h
            · left
              rw [h, hpn] at h4
              simp only [result.ok.injEq, Prod.mk.injEq] at h4
              apply List.mem_cons.mpr
              left
              cases a
              simp only at h h4
              rw [h, ← h4.1]
            · exact Or.inr ⟨h, h2, h3, f, h4, h5, h6⟩

/-- Claim C8: `load_alias_list` keeps a directory entry exactly when its resolution
followed at most one link and its mask is one of the eight single-bit masks, which is
when the discarding test `followed > 1 || map == 0 || (map & (map - 1)) != 0` is false.
For a directory whose entries all resolve, the list built holds the aliases that were
there before and, for every entry other than `.` and `..`, its name with its mask iff
that condition holds. In the example directory `lamp -> 3` is kept, `pair -> 1,2` (two
relays) and `hop -> lamp` (two links) are not. -/
theorem load_alias_list_keeps_single_direct (fuel : Nat) (d : alias_dir)
    (names : List (List Char)) (alias_list : List device_alias)
    (hdir : d.entries = some names)
    (hres : ∀ name ∈ names, name ≠ ".".toList → name ≠ "..".toList →
        ∃ map followed, parse_relay_list fuel d name 0 = .ok (map, followed)) :
    (∀ followed map : Int, is_mask map →
        (discards followed map = false ↔
          followed ≤ 1 ∧ map ∈ [1, 2, 4, 8, 16, 32, 64, 128]))
    ∧ (∃ kept, load_alias_list fuel d alias_list = .ok kept
        ∧ ∀ a : device_alias, a ∈ kept ↔
            (a ∈ alias_list
              ∨ (a.name ∈ names ∧ a.name ≠ ".".toList ∧ a.name ≠ "..".toList
                  ∧ ∃ followed, parse_relay_list fuel d a.name 0 = .ok (a.map, followed)
                      ∧ followed ≤ 1 ∧ a.map ∈ [1, 2, 4, 8, 16, 32, 64, 128])))
    ∧ parse_relay_list 3 example_dir "lamp".toList 0 = .ok (4, 1)
    ∧ parse_relay_list 3 example_dir "pair".toList 0 = .ok (3, 1)
    ∧ parse_relay_list 3 example_dir "hop".toList 0 = .ok (4, 2)
    ∧ load_alias_list 3 example_dir [] = .ok [{ name := "lamp".toList, map := 4 }] := by
  refine ⟨discards_iff, ?_, by decide, by decide, by decide, by decide⟩
  unfold load_alias_list
  rw [hdir]
  exact load_alias_loop_keeps fuel d names alias_list hres

/-- Witness of `load_alias_list_keeps_single_direct`: the example directory, whose five
entries all resolve within depth 3. -/
theorem load_alias_list_keeps_single_direct_witness :
    example_dir.entries
        = some [".".toList, "..".toList, "lamp".toList, "pair".toList, "hop".toList]
    ∧ ∃ kept, load_alias_list 3 example_dir [] = .ok kept
        ∧ ∀ a : device_alias, a ∈ kept ↔
            (a ∈ []
              ∨ (a.name ∈ [".".toList, "..".toList, "lamp".toList, "pair".toList,
                            "hop".toList]
                  ∧ a.name ≠ ".".toList ∧ a.name ≠ "..".toList
                  ∧ ∃ followed,
                      parse_relay_list 3 example_dir a.name 0 = .ok (a.map, followed)
                      ∧ followed ≤ 1 ∧ a.map ∈ [1, 2, 4, 8, 16, 32, 64, 128])) :=
  ⟨rfl,
   (load_alias_list_keeps_single_direct 3 example_dir
      [".".toList, "..".toList, "lamp".toList, "pair".toList, "hop".toList] [] rfl
      (by
        intro name hn h1 h2
        simp only [List.mem_cons, List.mem_singleton, List.not_mem_nil, or_false] at hn
        rcases hn with h | h | h | h | h
        · exact absurd h h1
        · exact absurd h h2
        · exact ⟨4, 1, by rw [h]; decide⟩
        · exact ⟨3, 1, by rw [h]; decide⟩
        · exact ⟨4, 2, by rw [h]; decide⟩)).2.1⟩

/-! ## The resolver against the specification -/

theorem lor_zero_left (m : Int) : Int.lor 0 m = m := by
  apply int_eq_of_testBit_eq
  intro k
  rw [Int.testBit_lor]
  simp [Int.testBit]

theorem lor_zero_right (m : Int) : Int.lor m 0 = m := by
  apply int_eq_of_testBit_eq
  intro k
  rw [Int.testBit_lor]
  simp [Int.testBit]

theorem lor_assoc (a b c : Int) : Int.lor (Int.lor a b) c = Int.lor a (Int.lor b c) := by
  apply int_eq_of_testBit_eq
  intro k
  simp only [Int.testBit_lor, Bool.or_assoc]

theorem shift_eq_spec_bit (n : Int) (h1 : 1 ≤ n) (h8 : n ≤ 8) :
    (1 : Int) <<< (n - 1) = spec_bit n := by
  interval_cases n <;> rfl

theorem tokens_aux_length_le (s : List Char) :
    ∀ cur : List Char, (tokens_aux s cur).length ≤ s.length + 1 := by
  induction s with
  | nil =>
    intro cur
    by_cases h : cur = [] <;> simp [tokens_aux, h]
  | cons c cs ih =>
    intro cur
    rw [tokens_aux]
    by_cases hc : c = ','
    · rw [if_pos hc]
      by_cases h : cur = []
      · rw [if_pos h]
        have := ih []
        simp only [List.length_cons]
        omega
      · rw [if_neg h]
        have := ih []
        simp only [List.length_cons]
        omega
    · rw [if_neg hc]
      have := ih (c :: cur)
      simp only [List.length_cons]
      omega

theorem tokens_length_le (s : List Char) : (tokens s).length ≤ s.length + 1 :=
  tokens_aux_length_le s []

theorem match_alias_length (d : alias_dir) (t target : List Char)
    (h : match_alias d t BUFSIZ = some target) : target.length ≤ 8191 := by
  unfold match_alias at h
  cases hr : d.readlink t with
  | none => simp [hr] at h
  | some full =>
    simp only [hr, Option.some.injEq] at h
    rw [← h, List.length_take]
    exact Nat.min_le_left _ _

theorem match_alias_isSome (d : alias_dir) (t : List Char) :
    (match_alias d t BUFSIZ).isSome = (d.readlink t).isSome := by
  unfold match_alias
  cases d.readlink t <;> rfl

theorem atoi_of_spec_channel (t : List Char) (n : Int) (h : spec_channel t = some n) :
    atoi t = some n ∧ 1 ≤ n ∧ n ≤ 8 := by
  unfold spec_channel at h
  split at h
  · rename_i hc
    obtain ⟨hne, hall, h1, h8⟩ := hc
    simp only [Option.some.injEq] at h
    subst h
    refine ⟨?_, h1, h8⟩
    cases t with
    | nil => exact absurd rfl hne
    | cons c cs =>
      have hcd : c.isDigit = true := by
        simp only [List.all_cons, Bool.and_eq_true] at hall
        exact hall.1
      have hsp : isspace c = false := by
        by_contra hs
        simp only [isspace, Bool.not_eq_false, Bool.or_eq_true, decide_eq_true_eq] at hs
        rcases hs with ((((h | h) | h) | h) | h) | h <;> (rw [h] at hcd; exact absurd hcd (by decide))
      have hminus : c ≠ '-' := by
        intro h; rw [h] at hcd; exact absurd hcd (by decide)
      have hplus : c ≠ '+' := by
        intro h; rw [h] at hcd; exact absurd hcd (by decide)
      have htake : List.takeWhile Char.isDigit (c :: cs) = c :: cs := by
        rw [List.takeWhile_eq_self_iff]
        intro x hx
        exact (List.all_eq_true.mp hall) x hx
      unfold atoi
      have hdrop : List.dropWhile isspace (c :: cs) = c :: cs := by
        rw [List.dropWhile_cons, hsp]; rfl
      have hsign : atoi_sign (c :: cs) = (false, c :: cs) := by
        unfold atoi_sign
        split
        · rename_i r heq
          simp only [List.cons.injEq] at heq
          exact absurd heq.1 hminus
        · rename_i r heq
          simp only [List.cons.injEq] at heq
          exact absurd heq.1 hplus
        · rfl
      simp only [hdrop, hsign, htake, Bool.false_eq_true, if_false]
      rw [if_pos]
      constructor
      · unfold INT_MIN; omega
      · unfold INT_MAX; omega
  · simp at h

theorem parse_loop_refines (recurse : List Char → Int → Int → result (Int × Int))
    (resolve : List Char → Option (Int × Int)) (d : alias_dir)
    (hrec : ∀ (t target : List Char) (m c map followed : Int),
      match_alias d t BUFSIZ = some target → resolve target = some (m, c) →
      recurse target map followed = .ok (Int.lor map m, followed + c))
    (ts : List (List Char)) :
    ∀ (guard map followed m c : Int),
      ((alias_tokens d ts).length : Int) ≤ guard →
      spec_union resolve (fun t => match_alias d t BUFSIZ) ts = some (m, c) →
      parse_loop recurse d ts guard map followed = .ok (Int.lor map m, followed + c) := by
  induction ts with
  | nil =>
    intro guard map followed m c _ hs
    simp only [spec_union, Option.some.injEq, Prod.mk.injEq] at hs
    rw [parse_loop, ← hs.1, ← hs.2, lor_zero_right, add_zero]
  | cons p rest ih =>
    intro guard map followed m c hg hs
    rw [spec_union] at hs
    cases htok : spec_token resolve (fun t => match_alias d t BUFSIZ) p with
    | none => simp [htok] at hs
    | some v1 =>
      obtain ⟨m1, c1⟩ := v1
      cases hrest : spec_union resolve (fun t => match_alias d t BUFSIZ) rest with
      | none => simp [htok, hrest] at hs
      | some v2 =>
        obtain ⟨m2, c2⟩ := v2
        simp only [htok, hrest, Option.some.injEq, Prod.mk.injEq] at hs
        obtain ⟨hm, hc⟩ := hs
        unfold spec_token at htok
        rw [parse_loop]
        cases hma : match_alias d p BUFSIZ with
        | some target =>
          simp only [hma] at htok ⊢
          have hsome : (d.readlink p).isSome = true := by
            rw [← match_alias_isSome, hma]; rfl
          have hlen : (alias_tokens d (p :: rest)).length
              = (alias_tokens d rest).length + 1 := by
            simp [alias_tokens, List.filter_cons, hsome]
          rw [hlen] at hg
          have hg0 : guard ≠ 0 := by
            intro h0
            rw [h0] at hg
            have : (0 : Int) ≤ ((alias_tokens d rest).length : Int) := Int.natCast_nonneg _
            push_cast at hg
            omega
          rw [if_neg hg0]
          cases hres : resolve target with
          | none => simp [hres] at htok
          | some v3 =>
            obtain ⟨m3, c3⟩ := v3
            simp only [hres, Option.some.injEq, Prod.mk.injEq] at htok
            rw [hrec p target m3 c3 map (followed + 1) hma hres]
            simp only []
            rw [ih (guard - 1) (Int.lor map m3) (followed + 1 + c3) m2 c2
              (by push_cast at hg; omega) hrest]
            rw [lor_assoc, htok.1, hm]
            congr 2
            omega
        | none =>
          simp only [hma] at htok ⊢
          have hnone : (d.readlink p).isSome = false := by
            rw [← match_alias_isSome, hma]; rfl
          have hlen : (alias_tokens d (p :: rest)).length = (alias_tokens d rest).length := by
            simp [alias_tokens, List.filter_cons, hnone]
          rw [hlen] at hg
          cases hch : spec_channel p with
          | none => simp [hch] at htok
          | some n =>
            simp only [hch, Option.some.injEq, Prod.mk.injEq] at htok
            obtain ⟨hat, h1, h8⟩ := atoi_of_spec_channel p n hch
            simp only [hat]
            rw [if_neg (by omega), shift_eq_spec_bit n h1 h8]
            rw [ih guard (Int.lor map (spec_bit n)) followed m2 c2 hg hrest]
            rw [lor_assoc, htok.1, hm]
            congr 2
            omega

theorem alias_tokens_length_le (d : alias_dir) (ts : List (List Char)) :
    (alias_tokens d ts).length ≤ ts.length :=
  List.length_filter_le _ _

/-- The resolver computes what the specification describes, into the cells it is given:
a list that resolves to mask `m` with `c` indirections adds `m` to `*map` and `c` to
`*followed`, provided the list does not hold more than 9999 alias tokens. -/
theorem parse_refines (d : alias_dir) (fuel : Nat) :
    ∀ (list : List Char) (map followed m c : Int),
      spec_resolve fuel (fun t => match_alias d t BUFSIZ) list = some (m, c) →
      (alias_tokens d (tokens list)).length ≤ 9999 →
      __parse_relay_list fuel d list map followed = .ok (Int.lor map m, followed + c) := by
  induction fuel with
  | zero =>
    intro list map followed m c h _
    simp [spec_resolve] at h
  | succ n ih =>
    intro list map followed m c h hcap
    rw [spec_resolve] at h
    rw [__parse_relay_list]
    cases ht : tokens list with
    | nil => simp [ht] at h
    | cons p rest =>
      have hl : list ≠ [] := by
        intro hnil
        rw [hnil] at ht
        have h0 : tokens [] = [] := rfl
        rw [h0] at ht
        exact List.noConfusion ht
      rw [if_neg hl]
      simp only [ht] at h ⊢
      apply parse_loop_refines (__parse_relay_list n d)
        (spec_resolve n (fun t => match_alias d t BUFSIZ)) d _ (p :: rest) 9999 map followed m c
      · rw [ht] at hcap
        exact_mod_cast hcap
      · exact h
      · intro t target m' c' map' followed' hma hres
        apply ih target map' followed' m' c' hres
        have h1 := alias_tokens_length_le d (tokens target)
        have h2 := tokens_length_le target
        have h3 := match_alias_length d t target hma
        omega

/-! ## A long list of aliases -/

theorem tokens_x_list (k : Nat) : tokens (x_list k) = List.replicate (k + 1) ['x'] := by
  unfold tokens
  induction k with
  | zero => rfl
  | succ k ih =>
    have hx : ¬ 'x' = ',' := by decide
    rw [x_list, tokens_aux, if_neg hx, tokens_aux, if_pos rfl,
      if_neg (List.cons_ne_nil 'x' []), ih]
    rfl

theorem x_list_ne_nil (k : Nat) : x_list k ≠ [] := by
  cases k <;> exact List.cons_ne_nil _ _

/-- Resolving the target of `x`, the list `1`, into a mask that already has bit 0. -/
theorem parse_x_target (fuel : Nat) (followed : Int) :
    __parse_relay_list (fuel + 1) x_dir ['1'] 0 followed = .ok (1, followed)
    ∧ __parse_relay_list (fuel + 1) x_dir ['1'] 1 followed = .ok (1, followed) := by
  have ht : tokens ['1'] = [['1']] := by decide
  have hm : match_alias x_dir ['1'] BUFSIZ = none := by decide
  have ha : atoi ['1'] = some 1 := by decide
  constructor <;>
  · rw [__parse_relay_list, if_neg (List.cons_ne_nil _ _), ht]
    simp only [parse_loop, hm, ha]
    rfl

/-- The loop of `__parse_relay_list` on `k` tokens `x`: each one takes one unit of
`guard`, and the token met with `guard == 0` ends the run. -/
theorem parse_loop_x (fuel : Nat) (k : Nat) :
    ∀ (guard followed : Int), 0 ≤ guard →
      parse_loop (__parse_relay_list (fuel + 1) x_dir) x_dir (List.replicate k ['x'])
          guard 1 followed
        = if (k : Int) ≤ guard then .ok (1, followed + k) else .error .circular_aliasing := by
  have hm : match_alias x_dir ['x'] BUFSIZ = some ['1'] := by decide
  induction k with
  | zero =>
    intro guard followed hg
    simp [parse_loop, hg]
  | succ k ih =>
    intro guard followed hg
    rw [List.replicate_succ, parse_loop]
    simp only [hm]
    by_cases h0 : guard = 0
    · rw [if_pos h0, if_neg]
      push_cast
      omega
    · rw [if_neg h0, (parse_x_target fuel (followed + 1)).2]
      simp only []
      rw [ih (guard - 1) (followed + 1) (by omega)]
      by_cases hk : (k : Int) ≤ guard - 1
      · rw [if_pos hk, if_pos (by push_cast; omega)]
        congr 2
        push_cast
        omega
      · rw [if_neg hk, if_neg (by push_cast; omega)]

/-- The list `x,...,x` of `k + 1` alias tokens resolves when `k + 1 ≤ 9999` and ends
with the circular-aliasing error otherwise. -/
theorem parse_x_list (fuel k : Nat) :
    parse_relay_list (fuel + 2) x_dir (x_list k) 0
      = if k ≤ 9998 then .ok (1, (k : Int) + 1) else .error .circular_aliasing := by
  have hm : match_alias x_dir ['x'] BUFSIZ = some ['1'] := by decide
  unfold parse_relay_list
  rw [__parse_relay_list, if_neg (x_list_ne_nil k), tokens_x_list, List.replicate_succ]
  simp only []
  rw [parse_loop]
  simp only [hm]
  rw [if_neg (by decide), (parse_x_target fuel (0 + 1)).1]
  simp only []
  rw [parse_loop_x fuel k (9999 - 1) (0 + 1) (by decide)]
  by_cases hk : k ≤ 9998
  · rw [if_pos hk, if_pos (by omega)]
    congr 2
    omega
  · rw [if_neg hk, if_neg (by omega)]

theorem spec_union_x (resolve : List Char → Option (Int × Int))
    (hres : resolve ['1'] = some (1, 0)) (k : Nat) :
    spec_union resolve (fun t => match_alias x_dir t BUFSIZ) (List.replicate (k + 1) ['x'])
      = some (1, (k : Int) + 1) := by
  have hm : match_alias x_dir ['x'] BUFSIZ = some ['1'] := by decide
  have htok : spec_token resolve (fun t => match_alias x_dir t BUFSIZ) ['x']
      = some (1, 0 + 1) := by
    unfold spec_token
    simp only [hm, hres]
  induction k with
  | zero =>
    simp only [List.replicate, spec_union, htok]
    rfl
  | succ k ih =>
    rw [List.replicate_succ, spec_union, htok, ih]
    simp only []
    have h11 : Int.lor 1 1 = 1 := by decide
    rw [h11]
    congr 2
    push_cast
    omega

/-- The specification's resolution of `x,...,x` with `k + 1` tokens: relay 1 through
`k + 1` indirections. -/
theorem spec_resolve_x_list (fuel k : Nat) :
    spec_resolve (fuel + 2) (fun t => match_alias x_dir t BUFSIZ) (x_list k)
      = some (1, (k : Int) + 1) := by
  have h1 : spec_resolve (fuel + 1) (fun t => match_alias x_dir t BUFSIZ) ['1']
      = some (1, 0) := by
    have ht : tokens ['1'] = [['1']] := by decide
    have hm : match_alias x_dir ['1'] BUFSIZ = none := by decide
    have hc : spec_channel ['1'] = some 1 := by decide
    have hb : spec_bit 1 = 1 := by decide
    have hl : Int.lor 1 0 = 1 := by decide
    rw [spec_resolve, ht]
    simp only [spec_union, spec_token, hm, hc, hb, hl, add_zero]
  rw [spec_resolve, tokens_x_list, List.replicate_succ]
  simp only []
  rw [← List.replicate_succ]
  exact spec_union_x _ h1 k

/-- Counterexample to claim C5 as stated: with the single alias `x -> 1`, on which every
resolution terminates, the list `x,x,...,x` of 10000 tokens stands for relay 1 through
10000 indirections, but `parse_relay_list` ends with the circular-aliasing error at the
10000th token; with 9999 tokens it returns mask 1 and count 9999. -/
theorem ten_thousand_aliases_are_refused :
    x_dir.readlink "x".toList = some "1".toList
    ∧ (tokens (x_list 9999)).length = 10000
    ∧ spec_resolve 2 (fun t => match_alias x_dir t BUFSIZ) (x_list 9999) = some (1, 10000)
    ∧ parse_relay_list 2 x_dir (x_list 9999) 0 = .error .circular_aliasing
    ∧ parse_relay_list 2 x_dir (x_list 9998) 0 = .ok (1, 9999) := by
  refine ⟨by decide, ?_, ?_, ?_, ?_⟩
  · rw [tokens_x_list, List.length_replicate]
  · rw [spec_resolve_x_list 0 9999]
    norm_num
  · rw [parse_x_list 0 9999, if_neg (by decide)]
  · rw [parse_x_list 0 9998, if_pos (by decide)]
    norm_num

/-- Claim C5 as amended: when the list has at least one token, every token is an alias
name or a decimal number in 1..8, the aliases reached nest no deeper than `fuel`, and the
list given holds at most 9999 alias tokens, `parse_relay_list` started from an empty mask
returns the union over the tokens, left to right, of bit `n - 1` for a number `n` and of
the mask of the resolved target for an alias (looked up first), and the count of all
indirections followed; started from any cells it adds that mask and that count to them.
The list `1,lamp` with `lamp -> 3` gives mask `0b101` and count 1. -/
theorem parse_relay_list_is_union (fuel : Nat) (d : alias_dir) (list : List Char)
    (m c : Int)
    (hres : spec_resolve fuel (fun t => match_alias d t BUFSIZ) list = some (m, c))
    (hcap : (alias_tokens d (tokens list)).length ≤ 9999) :
    parse_relay_list fuel d list 0 = .ok (m, c)
    ∧ (∀ map followed : Int,
        __parse_relay_list fuel d list map followed = .ok (Int.lor map m, followed + c))
    ∧ parse_relay_list 2 example_dir "1,lamp".toList 0 = .ok (5, 1) := by
  refine ⟨?_, fun map followed => parse_refines d fuel list map followed m c hres hcap,
    by decide⟩
  unfold parse_relay_list
  rw [parse_refines d fuel list 0 0 m c hres hcap, lor_zero_left, zero_add]

/-- Witness of `parse_relay_list_is_union`: the list `1,lamp` in the example directory. -/
theorem parse_relay_list_is_union_witness :
    spec_resolve 2 (fun t => match_alias example_dir t BUFSIZ) "1,lamp".toList = some (5, 1)
    ∧ (alias_tokens example_dir (tokens "1,lamp".toList)).length ≤ 9999
    ∧ parse_relay_list 2 example_dir "1,lamp".toList 0 = .ok (5, 1) :=
  ⟨by decide, by decide,
   (parse_relay_list_is_union 2 example_dir "1,lamp".toList 5 1 (by decide) (by decide)).1⟩

/-! ## Short reads -/

/-- Counterexample to claim C11 as stated: a `read` that returns 0 bytes is not an error
for `read_device`. The buffer still holds the status request just written, whose checksum
is valid, so `read_device` returns it and `power_status` decodes `param1` and `param2`
from it and prints relay 1 as off. A read of two bytes ends with the checksum error, not
with the transport error. -/
theorem short_read_goes_undetected :
    (sys_read ⟨false, [], [], [], [], []⟩
        (k8090_packet.bytes ⟨⟨4, 0x18, 0, 0, 0⟩, 0xe4, 0x0f⟩) sizeof_k8090_packet).2.2 = 0
    ∧ (read_device ⟨false, [], [], [], [], []⟩ ⟨⟨4, 0x18, 0, 0, 0⟩, 0xe4, 0x0f⟩).2
        = .ok ⟨⟨4, 0x18, 0, 0, 0⟩, 0xe4, 0x0f⟩
    ∧ (power_status ⟨false, [], [], [], [], []⟩ ⟨0, 0, 0, 0, 1⟩ []).2 = .ok ()
    ∧ (power_status ⟨false, [], [], [], [], []⟩ ⟨0, 0, 0, 0, 1⟩ []).1.stdout
        = ["#1       => --\n"]
    ∧ (read_device ⟨false, [], [], [], [some [4, 0x51]], []⟩
        ⟨⟨4, 0x18, 0, 0, 0⟩, 0xe4, 0x0f⟩).2 = .error .bad_checksum := by
  decide

/-- Claim C11 as amended: `read_device` ends with the fatal transport error exactly when
`read` returns a negative value. Any other return, a short count and 0 included, leads to
the checksum test on the buffer as `read` left it (the bytes received, then what the
buffer held before), and the packet is returned when the test passes. -/
theorem read_device_fatal_iff_read_negative (w : world) (pkt : k8090_packet) :
    ((read_device w pkt).2 = .error .read_failed
        ↔ (sys_read w pkt.bytes sizeof_k8090_packet).2.2 < 0)
    ∧ (0 ≤ (sys_read w pkt.bytes sizeof_k8090_packet).2.2 →
        (read_device w pkt).2 =
          if do_checksum
                (k8090_packet.of_bytes (sys_read w pkt.bytes sizeof_k8090_packet).2.1).payload
              = (k8090_packet.of_bytes (sys_read w pkt.bytes sizeof_k8090_packet).2.1).checksum
          then .ok (k8090_packet.of_bytes (sys_read w pkt.bytes sizeof_k8090_packet).2.1)
          else .error .bad_checksum) := by
  unfold read_device
  rcases hs : sys_read w pkt.bytes sizeof_k8090_packet with ⟨w1, buf, ret⟩
  dsimp only
  constructor
  · constructor
    · intro h
      by_contra hneg
      rw [if_neg hneg] at h
      split_ifs at h <;> simp at h
    · intro h
      rw [if_pos h]
  · intro h
    rw [if_neg (by omega)]
    split_ifs <;> simp_all

/-- Counterexample to claim C12 as stated: with `off = 0b11` and `cycle = 0b01` the merge
leaves `cycle = 0`, not `0b10`. -/
theorem merge_off3_cycle1_is_not_2 :
    (merge ⟨0, 3, 0, 1, 0⟩).cycle_map = 0 ∧ (merge ⟨0, 3, 0, 1, 0⟩).cycle_map ≠ 2 := by
  have h : (merge ⟨0, 3, 0, 1, 0⟩).cycle_map = 0 := by
    have e1 : and_not 1 3 = 0 := and_not_natCast 1 3
    have e2 : and_not 0 0 = 0 := and_not_natCast 0 0
    simp only [merge, e1, e2]
  rw [h]
  exact ⟨rfl, by decide⟩

/-- Claim C12 as amended: with `off = 0b11` and `cycle = 0b01` (on and toggle empty) the
merge yields `cycle = 0`, since `off` removes all of its bits from `cycle`, and leaves
`off` as it is; with the two values exchanged, `off = 0b01` and `cycle = 0b11`, it yields
`cycle = 0b10`. -/
theorem merge_off_removes_from_cycle (status0 : Int) :
    merge ⟨0, 3, 0, 1, status0⟩ = ⟨0, 3, 0, 0, status0⟩
    ∧ merge ⟨0, 1, 0, 3, status0⟩ = ⟨0, 1, 0, 2, status0⟩ := by
  have e1 : and_not 1 3 = 0 := and_not_natCast 1 3
  have e2 : and_not 0 0 = 0 := and_not_natCast 0 0
  have e3 : and_not 3 1 = 2 := and_not_natCast 3 1
  have e4 : and_not 0 1 = 0 := and_not_natCast 0 1
  have e5 : and_not 0 3 = 0 := and_not_natCast 0 3
  have e6 : and_not 3 0 = 3 := and_not_natCast 3 0
  have e7 : and_not 1 0 = 1 := and_not_natCast 1 0
  have e8 : and_not 2 0 = 2 := and_not_natCast 2 0
  have e9 : and_not 0 2 = 0 := and_not_natCast 0 2
  constructor <;> simp only [merge, e1, e2, e3, e4, e5, e6, e7, e8, e9]

/-! ## Nothing is lost in the merge -/

/-- Claim C16: the merge drops no requested relay. The union of the four merged masks is
the union of the four masks given, and a bit that is set in one of the masks given is set
in exactly one of the merged masks. -/
theorem merge_keeps_every_request (g : maps) :
    Int.lor (Int.lor (Int.lor (merge g).on_map (merge g).off_map) (merge g).toggle_map)
        (merge g).cycle_map
      = Int.lor (Int.lor (Int.lor g.on_map g.off_map) g.toggle_map) g.cycle_map
    ∧ ∀ k : Nat,
        (bit_set g.on_map k ∨ bit_set g.off_map k ∨ bit_set g.toggle_map k
            ∨ bit_set g.cycle_map k)
        ↔ ((bit_set (merge g).on_map k ∧ ¬ bit_set (merge g).off_map k
              ∧ ¬ bit_set (merge g).toggle_map k ∧ ¬ bit_set (merge g).cycle_map k)
          ∨ (¬ bit_set (merge g).on_map k ∧ bit_set (merge g).off_map k
              ∧ ¬ bit_set (merge g).toggle_map k ∧ ¬ bit_set (merge g).cycle_map k)
          ∨ (¬ bit_set (merge g).on_map k ∧ ¬ bit_set (merge g).off_map k
              ∧ bit_set (merge g).toggle_map k ∧ ¬ bit_set (merge g).cycle_map k)
          ∨ (¬ bit_set (merge g).on_map k ∧ ¬ bit_set (merge g).off_map k
              ∧ ¬ bit_set (merge g).toggle_map k ∧ bit_set (merge g).cycle_map k)) := by
  constructor
  · apply int_eq_of_testBit_eq
    intro k
    simp only [merge, Int.testBit_lor, testBit_and_not]
    cases Int.testBit g.on_map k <;> cases Int.testBit g.off_map k <;>
      cases Int.testBit g.cycle_map k <;> cases Int.testBit g.toggle_map k <;> rfl
  · intro k
    simp only [merge, bit_set, testBit_and_not]
    cases Int.testBit g.on_map k <;> cases Int.testBit g.off_map k <;>
      cases Int.testBit g.cycle_map k <;> cases Int.testBit g.toggle_map k <;> simp

/-! ## Separators only -/

/-- Claim C18, evaluated on the code: the non-empty list `,` holds no token, so the first
`strtok_r` call returns `NULL`; the `do ... while` body runs before `p` is tested and the
null pointer goes to `match_alias` and `atoi`. The same happens for `,,,`, whatever the
alias directory. -/
theorem separators_only_pass_a_null_token (fuel : Nat) (d : alias_dir)
    (map followed : Int) :
    strtok_r [','] = (none, [])
    ∧ tokens [','] = []
    ∧ __parse_relay_list (fuel + 1) d [','] map followed = .error .null_token
    ∧ __parse_relay_list (fuel + 1) d [',', ',', ','] map followed = .error .null_token
    ∧ parse_relay_list (fuel + 1) d [','] map = .error .null_token := by
  have t1 : tokens [','] = [] := by decide
  have t3 : tokens [',', ',', ','] = [] := by decide
  refine ⟨by decide, t1, ?_, ?_, ?_⟩
  · rw [__parse_relay_list, if_neg (List.cons_ne_nil _ _), t1]
  · rw [__parse_relay_list, if_neg (List.cons_ne_nil _ _), t3]
  · unfold parse_relay_list
    rw [__parse_relay_list, if_neg (List.cons_ne_nil _ _), t1]

/-! ## Single-byte errors -/

theorem do_checksum_eq (a b c d e : Nat) :
    do_checksum ⟨a, b, c, d, e⟩ = (256 - (a + b + c + d + e) % 256) % 256 := by
  unfold do_checksum
  rw [to_uint8_lnot_add_one]
  simp only [k8090_payload.bytes, List.foldl]
  omega

/-- The outcome of `read_device` when `read` delivers seven bytes. -/
theorem read_device_seven (w : world) (buf : k8090_packet)
    (rest : List (Option (List Nat))) (b0 b1 b2 b3 b4 b5 b6 : Nat)
    (hrx : w.rx = some [b0, b1, b2, b3, b4, b5, b6] :: rest) :
    (read_device w buf).2 =
      if do_checksum ⟨b0, b1, b2, b3, b4⟩ = b5 then .ok ⟨⟨b0, b1, b2, b3, b4⟩, b5, b6⟩
      else .error .bad_checksum := by
  unfold read_device sys_read
  rw [hrx]
  have htake : List.take sizeof_k8090_packet [b0, b1, b2, b3, b4, b5, b6]
      = [b0, b1, b2, b3, b4, b5, b6] := rfl
  have hdrop : List.drop 7 buf.bytes = [] := rfl
  have hof : k8090_packet.of_bytes [b0, b1, b2, b3, b4, b5, b6]
      = ⟨⟨b0, b1, b2, b3, b4⟩, b5, b6⟩ := rfl
  simp only [htake, List.length_cons, List.length_nil, hdrop, List.append_nil]
  simp only [Nat.reduceAdd, hdrop, List.append_nil, hof]
  cases w.debug <;> by_cases hc : do_checksum ⟨b0, b1, b2, b3, b4⟩ = b5 <;> simp [hc]

/-- Claim C17: when seven received bytes pass the checksum validation of `read_device`,
the same bytes with any one of the first six (the five payload bytes or the checksum
byte) replaced by a different byte value are refused with the bad-checksum error. -/
theorem single_byte_change_is_refused (b0 b1 b2 b3 b4 b5 b6 v i : Nat)
    (h0 : b0 < 256) (h1 : b1 < 256) (h2 : b2 < 256) (h3 : b3 < 256) (h4 : b4 < 256)
    (hv : v < 256) (hi : i < 6)
    (hvalid : do_checksum ⟨b0, b1, b2, b3, b4⟩ = b5)
    (hdiff : [b0, b1, b2, b3, b4, b5, b6].getD i 0 ≠ v) :
    (∀ (w : world) (buf : k8090_packet) (rest : List (Option (List Nat))),
        w.rx = some [b0, b1, b2, b3, b4, b5, b6] :: rest →
        (read_device w buf).2 = .ok ⟨⟨b0, b1, b2, b3, b4⟩, b5, b6⟩)
    ∧ (∀ (w : world) (buf : k8090_packet) (rest : List (Option (List Nat))),
        w.rx = some ([b0, b1, b2, b3, b4, b5, b6].set i v) :: rest →
        (read_device w buf).2 = .error .bad_checksum) := by
  constructor
  · intro w buf rest hrx
    rw [read_device_seven w buf rest b0 b1 b2 b3 b4 b5 b6 hrx, if_pos hvalid]
  · intro w buf rest hrx
    rw [do_checksum_eq] at hvalid
    interval_cases i
    · simp only [List.set] at hrx
      simp only [List.getD_cons_zero] at hdiff
      rw [read_device_seven w buf rest _ _ _ _ _ _ _ hrx, if_neg]
      rw [do_checksum_eq]; omega
    · simp only [List.set] at hrx
      simp only [List.getD_cons_succ, List.getD_cons_zero] at hdiff
      rw [read_device_seven w buf rest _ _ _ _ _ _ _ hrx, if_neg]
      rw [do_checksum_eq]; omega
    · simp only [List.set] at hrx
      simp only [List.getD_cons_succ, List.getD_cons_zero] at hdiff
      rw [read_device_seven w buf rest _ _ _ _ _ _ _ hrx, if_neg]
      rw [do_checksum_eq]; omega
    · simp only [List.set] at hrx
      simp only [List.getD_cons_succ, List.getD_cons_zero] at hdiff
      rw [read_device_seven w buf rest _ _ _ _ _ _ _ hrx, if_neg]
      rw [do_checksum_eq]; omega
    · simp only [List.set] at hrx
      simp only [List.getD_cons_succ, List.getD_cons_zero] at hdiff
      rw [read_device_seven w buf rest _ _ _ _ _ _ _ hrx, if_neg]
      rw [do_checksum_eq]; omega
    · simp only [List.set] at hrx
      simp only [List.getD_cons_succ, List.getD_cons_zero] at hdiff
      rw [read_device_seven w buf rest _ _ _ _ _ _ _ hrx, if_neg]
      rw [do_checksum_eq]; omega

/-- Witness of `single_byte_change_is_refused`: the status answer `04 18 00 05 01 de 0f`
with its `param1` byte changed from 5 to 4. -/
theorem single_byte_change_is_refused_witness :
    do_checksum ⟨4, 0x18, 0, 5, 1⟩ = 0xde
    ∧ (read_device ⟨false, [], [], [], [some [4, 0x18, 0, 5, 1, 0xde, 0x0f]], []⟩
        (init_packet GET_STATUS)).2 = .ok ⟨⟨4, 0x18, 0, 5, 1⟩, 0xde, 0x0f⟩
    ∧ (read_device ⟨false, [], [], [], [some [4, 0x18, 0, 4, 1, 0xde, 0x0f]], []⟩
        (init_packet GET_STATUS)).2 = .error .bad_checksum :=
  ⟨by decide,
   (single_byte_change_is_refused 4 0x18 0 5 1 0xde 0x0f 4 3 (by decide) (by decide)
      (by decide) (by decide) (by decide) (by decide) (by decide) (by decide)
      (by decide)).1 ⟨false, [], [], [], [some [4, 0x18, 0, 5, 1, 0xde, 0x0f]], []⟩
      (init_packet GET_STATUS) [] rfl,
   (single_byte_change_is_refused 4 0x18 0 5 1 0xde 0x0f 4 3 (by decide) (by decide)
      (by decide) (by decide) (by decide) (by decide) (by decide) (by decide)
      (by decide)).2 ⟨false, [], [], [], [some [4, 0x18, 0, 4, 1, 0xde, 0x0f]], []⟩
      (init_packet GET_STATUS) [] rfl⟩

/-! ## The firmware version line -/

/-- A `write` that does not fail lets `write_device` return, and leaves the input side
of the line as it was. -/
theorem write_device_ok (w : world) (pkt : k8090_packet)
    (hw : ∀ (r : Int) (rest : List Int), w.write_ret = r :: rest → 0 ≤ r) :
    ∃ (w1 : world) (p : k8090_packet), write_device w pkt = (w1, .ok p) ∧ w1.rx = w.rx := by
  unfold write_device sys_write
  cases hr : w.write_ret with
  | nil =>
    cases hd : w.debug <;>
      simp [dump_packet, hr, sizeof_k8090_packet, sizeof_k8090_payload, sizeof_uint8_t]
  | cons r rest =>
    have h0 : ¬ r < 0 := not_lt.mpr (hw r rest hr)
    cases hd : w.debug <;> simp [dump_packet, hr, h0]

/-- Claim C14: when the version query is written and the answer read passes the checksum,
`firmware_version` returns and the last thing printed is the year `param1 - 16 + 2010`,
a dot, the revision `param2` and a newline, both numbers in decimal; the answer with
`param1 = 0x12` and `param2 = 3` prints `2012.3`. -/
theorem firmware_version_prints_year_revision (w : world)
    (rest : List (Option (List Nat))) (b0 b1 b2 param1 param2 b5 b6 : Nat)
    (hw : ∀ (r : Int) (rest : List Int), w.write_ret = r :: rest → 0 ≤ r)
    (hrx : w.rx = some [b0, b1, b2, param1, param2, b5, b6] :: rest)
    (hvalid : do_checksum ⟨b0, b1, b2, param1, param2⟩ = b5) :
    (firmware_version w).2 = .ok ()
    ∧ (∃ year : Nat, (year : Int) = (param1 : Int) - 16 + 2010
        ∧ (firmware_version w).1.stdout.getLast?
            = some (toString year ++ "." ++ toString param2 ++ "\n"))
    ∧ (firmware_version
        ⟨false, [], [], [], [some [4, 0x71, 0, 0x12, 3, 0x76, 0x0f]], []⟩).1.stdout
          = ["2012.3\n"] := by
  have hex : (firmware_version
        ⟨false, [], [], [], [some [4, 0x71, 0, 0x12, 3, 0x76, 0x0f]], []⟩).1.stdout
          = ["2012.3\n"] := by decide
  obtain ⟨w1, p, hwd, hrx1⟩ := write_device_ok w (init_packet GET_VERSION) hw
  have hrd := read_device_seven w1 p rest b0 b1 b2 param1 param2 b5 b6 (hrx1.trans hrx)
  rw [if_pos hvalid] at hrd
  unfold firmware_version
  dsimp only
  rw [hwd]
  dsimp only
  rcases hr : read_device w1 p with ⟨w2, r2⟩
  rw [hr] at hrd
  dsimp only at hrd
  subst hrd
  dsimp only
  refine ⟨rfl, ⟨param1 + 1994, by push_cast; ring, ?_⟩, hex⟩
  have hy : ((param1 : Int) - 16 + 2010).toNat = param1 + 1994 := by omega
  rw [hy, List.getLast?_append]
  rfl

/-- Witness of `firmware_version_prints_year_revision`: the answer `04 71 00 12 03 76 0f`
on a line where nothing fails. -/
theorem firmware_version_prints_year_revision_witness :
    do_checksum ⟨4, 0x71, 0, 0x12, 3⟩ = 0x76
    ∧ (firmware_version
        ⟨false, [], [], [], [some [4, 0x71, 0, 0x12, 3, 0x76, 0x0f]], []⟩).2 = .ok () :=
  ⟨by decide,
   (firmware_version_prints_year_revision
      ⟨false, [], [], [], [some [4, 0x71, 0, 0x12, 3, 0x76, 0x0f]], []⟩ []
      4 0x71 0 0x12 3 0x76 0x0f (fun r rest h => List.noConfusion h) rfl (by decide)).1⟩

/-! ## Display names -/

theorem load_alias_loop_single_bit (fuel : Nat) (d : alias_dir)
    (names : List (List Char)) :
    ∀ (alias_list kept : List device_alias),
      (∀ a ∈ alias_list, a.map ∈ [(1 : Int), 2, 4, 8, 16, 32, 64, 128]) →
      load_alias_loop fuel d names alias_list = .ok kept →
      ∀ a ∈ kept, a.map ∈ [(1 : Int), 2, 4, 8, 16, 32, 64, 128] := by
  induction names with
  | nil =>
    intro alias_list kept hall h
    simp only [load_alias_loop, result.ok.injEq] at h
    rw [← h]; exact hall
  | cons n rest ih =>
    intro alias_list kept hall h
    rw [load_alias_loop] at h
    split_ifs at h with hdot
    · exact ih alias_list kept hall h
    · cases hp : parse_relay_list fuel d n 0 with
      | error e => simp [hp] at h
      | ok v =>
        obtain ⟨map, followed⟩ := v
        simp only [hp] at h
        have hmask : is_mask map :=
          parse_is_mask d fuel n 0 0 map followed ⟨le_refl 0, by decide⟩ hp
        cases hdis : discards followed map with
        | true =>
          simp only [hdis, if_true] at h
          exact ih alias_list kept hall h
        | false =>
          simp only [hdis, Bool.false_eq_true, if_false] at h
          apply ih _ kept _ h
          intro a ha
          rcases List.mem_cons.mp ha with rfl | ha
          · exact ((discards_iff followed map hmask).mp hdis).2
          · exact hall a ha

theorem single_bit_selected (m : Int) (n : Nat) (hn : n < 8)
    (hm : m ∈ [(1 : Int), 2, 4, 8, 16, 32, 64, 128]) :
    Int.land m ((1 : Int) <<< (n : Int)) ≠ 0 ↔ m = 2 ^ n := by
  simp only [List.mem_cons, List.mem_singleton, List.not_mem_nil, or_false] at hm
  interval_cases n <;> rcases hm with h | h | h | h | h | h | h | h <;> subst h <;> decide

theorem fallback_name (n : Nat) (hn : n < 8) :
    ['#', Char.ofNat (to_uint8 ((n : Int) + 48 + 1))] = '#' :: (toString (n + 1)).toList := by
  interval_cases n <;> decide

theorem get_alias_name_cases (alias_list : List device_alias) (n : Nat) (hn : n < 8)
    (hall : ∀ a ∈ alias_list, a.map ∈ [(1 : Int), 2, 4, 8, 16, 32, 64, 128]) :
    (∃ a ∈ alias_list, a.map = 2 ^ n ∧ get_alias_name alias_list (n : Int) = a.name)
    ∨ ((∀ a ∈ alias_list, a.map ≠ 2 ^ n)
        ∧ get_alias_name alias_list (n : Int) = '#' :: (toString (n + 1)).toList) := by
  induction alias_list with
  | nil =>
    right
    refine ⟨fun a ha => absurd ha (List.not_mem_nil a), ?_⟩
    rw [get_alias_name, fallback_name n hn]
  | cons a rest ih =>
    have ha := hall a (List.mem_cons_self _ _)
    have hrest : ∀ b ∈ rest, b.map ∈ [(1 : Int), 2, 4, 8, 16, 32, 64, 128] :=
      fun b hb => hall b (List.mem_cons_of_mem _ hb)
    rw [get_alias_name]
    by_cases hsel : Int.land a.map ((1 : Int) <<< (n : Int)) ≠ 0
    · left
      rw [if_pos hsel]
      exact ⟨a, List.mem_cons_self _ _, (single_bit_selected a.map n hn ha).mp hsel, rfl⟩
    · rw [if_neg hsel]
      have hne : a.map ≠ 2 ^ n := fun h => hsel ((single_bit_selected a.map n hn ha).mpr h)
      rcases ih hrest with ⟨b, hb, hbm, hbn⟩ | ⟨hnone, hname⟩
      · left
        exact ⟨b, List.mem_cons_of_mem _ hb, hbm, hbn⟩
      · right
        refine ⟨fun b hb => ?_, hname⟩
        rcases List.mem_cons.mp hb with rfl | hb
        · exact hne
        · exact hnone b hb

/-- Claim C15: on an alias list built by `load_alias_list`, for a relay index `n` in 0..7,
`get_alias_name n` is the name of an alias of the list whose mask is exactly bit `n` when
there is one, and otherwise the character `#` followed by the decimal digit `n + 1`. -/
theorem get_alias_name_on_built_list (fuel : Nat) (d : alias_dir)
    (kept : List device_alias) (n : Nat)
    (hbuilt : load_alias_list fuel d [] = .ok kept) (hn : n < 8) :
    ((∃ a ∈ kept, a.map = 2 ^ n) →
        ∃ a ∈ kept, a.map = 2 ^ n ∧ get_alias_name kept (n : Int) = a.name)
    ∧ ((¬ ∃ a ∈ kept, a.map = 2 ^ n) →
        get_alias_name kept (n : Int) = '#' :: (toString (n + 1)).toList) := by
  have hall : ∀ a ∈ kept, a.map ∈ [(1 : Int), 2, 4, 8, 16, 32, 64, 128] := by
    unfold load_alias_list at hbuilt
    cases he : d.entries with
    | none => simp [he] at hbuilt
    | some names =>
      simp only [he] at hbuilt
      exact load_alias_loop_single_bit fuel d names [] kept
        (fun a ha => absurd ha (List.not_mem_nil a)) hbuilt
  rcases get_alias_name_cases kept n hn hall with ⟨a, ha, hm, hname⟩ | ⟨hnone, hname⟩
  · exact ⟨fun _ => ⟨a, ha, hm, hname⟩, fun h => absurd ⟨a, ha, hm⟩ h⟩
  · exact ⟨fun ⟨a, ha, hm⟩ => absurd hm (hnone a ha), fun _ => hname⟩

/-- Witness of `get_alias_name_on_built_list`: in the example directory relay 3 (index 2)
is shown as `lamp` and relay 1 (index 0) as `#1`. -/
theorem get_alias_name_on_built_list_witness :
    load_alias_list 3 example_dir [] = .ok [{ name := "lamp".toList, map := 4 }]
    ∧ get_alias_name [{ name := "lamp".toList, map := 4 }] 2 = "lamp".toList
    ∧ get_alias_name [{ name := "lamp".toList, map := 4 }] 0 = "#1".toList := by
  refine ⟨by decide, by decide, ?_⟩
  have h := (get_alias_name_on_built_list 3 example_dir
    [{ name := "lamp".toList, map := 4 }] 0 (by decide) (by decide)).2
  exact h (by decide)

/-! ## The order of the requests -/

theorem sends_nothing (w : world) : sends (w, .ok ()) w [] :=
  ⟨[], by simp, List.prefix_refl _, fun _ => rfl⟩

theorem sends_one (r : world × result Unit) (w : world) (p : List Nat)
    (h : r.1.tx = w.tx ++ [p]) : sends r w [p] :=
  ⟨[p], h, List.prefix_refl _, fun _ => rfl⟩

theorem sends_and_then (r : world × result Unit) (w : world)
    (next : world → world × result Unit) (pk1 pk2 : List (List Nat))
    (h1 : sends r w pk1) (h2 : ∀ w1, sends (next w1) w1 pk2) :
    sends (and_then r next) w (pk1 ++ pk2) := by
  obtain ⟨w1, res⟩ := r
  obtain ⟨sent1, htx1, hpre1, hall1⟩ := h1
  cases res with
  | error e =>
    refine ⟨sent1, htx1, ?_, ?_⟩
    · exact hpre1.trans (List.prefix_append pk1 pk2)
    · intro h
      simp [and_then] at h
  | ok u =>
    have hs : sent1 = pk1 := hall1 rfl
    obtain ⟨sent2, htx2, hpre2, hall2⟩ := h2 w1
    refine ⟨pk1 ++ sent2, ?_, ?_, ?_⟩
    · show (next w1).1.tx = w.tx ++ (pk1 ++ sent2)
      rw [htx2]
      dsimp only at htx1
      rw [htx1, hs, List.append_assoc]
    · exact (List.prefix_append_right_inj pk1).mpr hpre2
    · intro h
      rw [hall2 h]

theorem power_cycle_sends (w : world) (g : maps) :
    sends (power_cycle w g) w
      [request_bytes 0x12 (to_uint8 g.cycle_map), request_bytes 0x11 (to_uint8 g.cycle_map)] := by
  have hoff := power_off_tx w g.cycle_map
  unfold power_cycle
  rcases hp : power_off w g.cycle_map with ⟨w1, r⟩
  rw [hp] at hoff
  dsimp only at hoff
  cases r with
  | error e =>
    refine ⟨[request_bytes 0x12 (to_uint8 g.cycle_map)], hoff, ?_, ?_⟩
    · exact ⟨[request_bytes 0x11 (to_uint8 g.cycle_map)], rfl⟩
    · intro h
      simp at h
  | ok u =>
    dsimp only
    refine ⟨_, ?_, List.prefix_refl _, fun _ => rfl⟩
    rw [power_on_tx, hoff, List.append_assoc]
    rfl

theorem status_sends (w : world) (g : maps) (fuel : Nat) (d : alias_dir)
    (alias_list : List device_alias) :
    sends
      (match load_alias_list fuel d alias_list with
        | .error e => (w, .error e)
        | .ok alias_list => power_status w g alias_list)
      w [request_bytes 0x18 0] := by
  cases load_alias_list fuel d alias_list with
  | error e =>
    refine ⟨[], by simp, List.nil_prefix, ?_⟩
    intro h
    simp at h
  | ok l =>
    exact sends_one _ w _ (power_status_tx w g l)

theorem sends_guarded (c : Prop) [Decidable c] (w : world) (r : world × result Unit)
    (p : List (List Nat)) (h : sends r w p) :
    sends (if c then r else (w, .ok ())) w (if c then p else []) := by
  by_cases hc : c
  · rw [if_pos hc, if_pos hc]; exact h
  · rw [if_neg hc, if_neg hc]; exact sends_nothing w

theorem main_commands_sends (w : world) (g : maps) (query_firmware : Int) (fuel : Nat)
    (d : alias_dir) (alias_list : List device_alias) :
    sends (main_commands w g query_firmware fuel d alias_list) w
      (expected_requests g query_firmware) := by
  unfold main_commands expected_requests
  simp only [List.append_assoc]
  apply sends_and_then
  · exact sends_guarded _ w _ _ (sends_one _ w _ (firmware_version_tx w))
  intro w
  apply sends_and_then
  · exact sends_guarded _ w _ _ (sends_one _ w _ (power_off_tx w g.off_map))
  intro w
  apply sends_and_then
  · exact sends_guarded _ w _ _ (sends_one _ w _ (power_on_tx w g.on_map))
  intro w
  apply sends_and_then
  · exact sends_guarded _ w _ _ (sends_one _ w _ (power_toggle_tx w g))
  intro w
  apply sends_and_then
  · exact sends_guarded _ w _ _ (power_cycle_sends w g)
  intro w
  exact sends_guarded _ w _ _ (status_sends w g fuel d alias_list)

/-- Claim C13: whatever the final masks, the firmware flag and the behaviour of the line,
the buffers `main` hands to the transport are an initial part of the fixed sequence
firmware query (`0x71`), turn-off of `off`, turn-on of `on`, toggle of `toggle`, turn-off
then turn-on of `cycle` with the same mask, status query (`0x18`), each present when its
flag or mask is set, and they are the whole sequence when `main` returns. The sequence is
a function of the masks and the flag alone. On a line where nothing fails all seven
requests go out. -/
theorem main_sends_in_fixed_order (w : world) (g : maps) (query_firmware : Int)
    (fuel : Nat) (d : alias_dir) (alias_list : List device_alias) :
    (∃ sent : List (List Nat),
        (main_commands w g query_firmware fuel d alias_list).1.tx = w.tx ++ sent
        ∧ List.IsPrefix sent (expected_requests g query_firmware)
        ∧ ((main_commands w g query_firmware fuel d alias_list).2 = .ok () →
            sent = expected_requests g query_firmware))
    ∧ (∃ sent : List (List Nat),
        (main_after_options w g query_firmware fuel d alias_list).1.tx = w.tx ++ sent
        ∧ List.IsPrefix sent (expected_requests (merge g) query_firmware)
        ∧ ((main_after_options w g query_firmware fuel d alias_list).2 = .ok () →
            sent = expected_requests (merge g) query_firmware))
    ∧ main_commands
        ⟨false, [], [], [],
          [some [4, 0x71, 0, 0x12, 3, 0x76, 0x0f], some [4, 0x18, 0, 5, 1, 0xde, 0x0f]], []⟩
        ⟨1, 2, 4, 8, 1⟩ 1 3 example_dir []
      = (⟨false, ["2012.3\n", "#1       => ON (TIMED)\n"],
          [[4, 0x71, 0, 0, 0, 0x8b, 0x0f], [4, 0x12, 2, 0, 0, 0xe8, 0x0f],
           [4, 0x11, 1, 0, 0, 0xea, 0x0f], [4, 0x14, 4, 0, 0, 0xe4, 0x0f],
           [4, 0x12, 8, 0, 0, 0xe2, 0x0f], [4, 0x11, 8, 0, 0, 0xe3, 0x0f],
           [4, 0x18, 0, 0, 0, 0xe4, 0x0f]],
          [], [], [7, 7]⟩, .ok ()) := by
  refine ⟨main_commands_sends w g query_firmware fuel d alias_list,
    main_commands_sends w (merge g) query_firmware fuel d alias_list, by decide⟩

/-! ## When the circular-aliasing error is raised -/

theorem parse_loop_not_circular (recurse : List Char → Int → Int → result (Int × Int))
    (d : alias_dir)
    (hrec : ∀ (t target : List Char) (m f : Int), match_alias d t BUFSIZ = some target →
      recurse target m f ≠ .error .circular_aliasing)
    (ts : List (List Char)) :
    ∀ (guard map followed : Int), ((alias_tokens d ts).length : Int) ≤ guard →
      parse_loop recurse d ts guard map followed ≠ .error .circular_aliasing := by
  induction ts with
  | nil =>
    intro guard map followed _
    simp [parse_loop]
  | cons p rest ih =>
    intro guard map followed hg
    rw [parse_loop]
    cases hma : match_alias d p BUFSIZ with
    | some target =>
      dsimp only
      have hsome : (d.readlink p).isSome = true := by
        rw [← match_alias_isSome, hma]; rfl
      have hlen : (alias_tokens d (p :: rest)).length
          = (alias_tokens d rest).length + 1 := by
        simp [alias_tokens, List.filter_cons, hsome]
      rw [hlen] at hg
      push_cast at hg
      have hg0 : guard ≠ 0 := by
        intro h0
        have : (0 : Int) ≤ ((alias_tokens d rest).length : Int) := Int.natCast_nonneg _
        omega
      rw [if_neg hg0]
      cases hr : recurse target map (followed + 1) with
      | error e =>
        dsimp only
        intro h
        have he : e = .circular_aliasing := by
          simpa using h
        exact hrec p target map (followed + 1) hma (by rw [hr, he])
      | ok v =>
        obtain ⟨m1, f1⟩ := v
        dsimp only
        exact ih (guard - 1) m1 f1 (by omega)
    | none =>
      dsimp only
      have hnone : (d.readlink p).isSome = false := by
        rw [← match_alias_isSome, hma]; rfl
      have hlen : (alias_tokens d (p :: rest)).length = (alias_tokens d rest).length := by
        simp [alias_tokens, List.filter_cons, hnone]
      rw [hlen] at hg
      cases hn : atoi p with
      | none => simp
      | some n =>
        dsimp only
        by_cases hr : n < 1 ∨ n > 8
        · rw [if_pos hr]; simp
        · rw [if_neg hr]
          exact ih guard _ followed hg

/-- Counterexample to claim C19 as stated: the directory with the single alias `x -> 1`
has no cycle (`1` is not an alias, and the list resolves in the words of the
specification), yet the list `x,...,x` of 10001 tokens ends with the circular-aliasing
error. -/
theorem circular_error_without_a_cycle :
    x_dir.readlink "x".toList = some "1".toList
    ∧ x_dir.readlink "1".toList = none
    ∧ (tokens (x_list 10000)).length = 10001
    ∧ spec_resolve 2 (fun t => match_alias x_dir t BUFSIZ) (x_list 10000) = some (1, 10001)
    ∧ __parse_relay_list 2 x_dir (x_list 10000) 0 0 = .error .circular_aliasing := by
  refine ⟨by decide, by decide, ?_, ?_, ?_⟩
  · rw [tokens_x_list, List.length_replicate]
  · rw [spec_resolve_x_list 0 10000]
    norm_num
  · have h := parse_x_list 0 10000
    unfold parse_relay_list at h
    rw [h, if_neg (by decide)]

/-- Claim C19 as amended: for every alias directory, with or without a cycle, and every
list that holds at most 9999 alias tokens, `__parse_relay_list` does not end with the
circular-aliasing error, whatever the depth allowed and the cells it starts from. -/
theorem no_circular_error_within_9999_aliases (fuel : Nat) (d : alias_dir)
    (list : List Char) (map followed : Int)
    (hcap : (alias_tokens d (tokens list)).length ≤ 9999) :
    __parse_relay_list fuel d list map followed ≠ .error .circular_aliasing := by
  induction fuel generalizing list map followed with
  | zero => simp [__parse_relay_list]
  | succ n ih =>
    rw [__parse_relay_list]
    by_cases hl : list = []
    · rw [if_pos hl]; simp
    · rw [if_neg hl]
      cases ht : tokens list with
      | nil => simp
      | cons p rest =>
        dsimp only
        apply parse_loop_not_circular (__parse_relay_list n d) d _ (p :: rest) 9999 map
          followed
        · rw [ht] at hcap
          exact_mod_cast hcap
        · intro t target m f hma
          apply ih target m f
          have h1 := alias_tokens_length_le d (tokens target)
          have h2 := tokens_length_le target
          have h3 := match_alias_length d t target hma
          omega

/-- Witness of `no_circular_error_within_9999_aliases`: the list `x,x,x` in the directory
`x -> 1`. -/
theorem no_circular_error_within_9999_aliases_witness :
    (alias_tokens x_dir (tokens "x,x,x".toList)).length ≤ 9999
    ∧ __parse_relay_list 2 x_dir "x,x,x".toList 0 0 ≠ .error .circular_aliasing :=
  ⟨by decide,
   no_circular_error_within_9999_aliases 2 x_dir "x,x,x".toList 0 0 (by decide)⟩

end Power
